import Mathlib

/-!
Verification of the contract-processing pipeline (page-importance scanner,
document reducer, extraction post-processor, and the date-derivation
sub-algorithm present in two forms in the source).

The Python source is embedded shallowly: strings are Lean `String`s, Python
`set`s are `Finset Nat`, the filesystem and the generative-model call are
explicit state values, and library routines (`datetime.strptime` for the
concrete format lists used, `datetime` arithmetic, the two duration regexes)
are modelled at the character level with the regex-engine backtracking
behaviour they exhibit on these concrete patterns.  Exceptions raised by
`datetime` (out-of-range years) appear as the `raised` outcome / `none`.
-/

namespace Contracts

/-- A Gregorian calendar date as held by a Python `datetime` value
(valid years are 1..9999). -/
structure Date where
  year : Nat
  month : Nat
  day : Nat
deriving DecidableEq

/-- Gregorian leap-year rule (as implemented by Python `datetime`). -/
def isLeap (y : Nat) : Bool :=
  y % 4 == 0 && (y % 100 != 0 || y % 400 == 0)

/-- Number of days in month `m` of year `y`. -/
def daysInMonth (y m : Nat) : Nat :=
  if m = 2 then (if isLeap y then 29 else 28)
  else if m = 4 ∨ m = 6 ∨ m = 9 ∨ m = 11 then 30
  else 31

/-- Model of the `datetime(year, month, day)` constructor: returns the date
when it is in range, `none` when the constructor would raise `ValueError`. -/
def mkDatetime (y m d : Nat) : Option Date :=
  if 1 ≤ y ∧ y ≤ 9999 ∧ 1 ≤ m ∧ m ≤ 12 ∧ 1 ≤ d ∧ d ≤ daysInMonth y m then
    some ⟨y, m, d⟩
  else none

/-- The calendar day after `d` (no year bound; callers check the bound). -/
def nextDay (d : Date) : Date :=
  if d.day < daysInMonth d.year d.month then ⟨d.year, d.month, d.day + 1⟩
  else if d.month < 12 then ⟨d.year, d.month + 1, 1⟩
  else ⟨d.year + 1, 1, 1⟩

/-- Model of `datetime + timedelta(days = n)`: `none` when the addition
would leave the representable range and raise `OverflowError`. -/
def addDays : Date → Nat → Option Date
  | d, 0 => some d
  | d, n + 1 =>
    if d = ⟨9999, 12, 31⟩ then none else addDays (nextDay d) n

/-- Model of `datetime - timedelta(days = 1)`: `none` when the subtraction
would leave the representable range and raise `OverflowError`. -/
def subDay (d : Date) : Option Date :=
  if 1 < d.day then some ⟨d.year, d.month, d.day - 1⟩
  else if 1 < d.month then some ⟨d.year, d.month - 1, daysInMonth d.year (d.month - 1)⟩
  else if 1 < d.year then some ⟨d.year - 1, 12, 31⟩
  else none

/-! ## Character-level utilities shared by the regex / strptime models -/

/-- ASCII digit test (the `\d` class restricted to ASCII, which is all the
concrete patterns here can produce a match for in the formats used). -/
def isDigitChar (c : Char) : Bool :=
  48 ≤ c.toNat && c.toNat ≤ 57

/-- Numeric value of an ASCII digit. -/
def digitVal (c : Char) : Nat := c.toNat - 48

/-- Python whitespace (`\s` / `str.strip`), ASCII part. -/
def isPySpace (c : Char) : Bool :=
  c == ' ' || c == '\t' || c == '\n' || c == '\r' || c.toNat == 11 || c.toNat == 12

/-- Case-insensitive match of input char `c` against a lowercase pattern
char `p` (ASCII model of the `re.IGNORECASE` flag). -/
def ciEq (c p : Char) : Bool :=
  c == p || (65 ≤ c.toNat && c.toNat ≤ 90 && c.toNat + 32 == p.toNat)

/-- Case-insensitive equality of an input string with a lowercase pattern
string; models `matched.lower() == pattern`. -/
def lowerEq : List Char → List Char → Bool
  | [], [] => true
  | c :: cs, p :: ps => ciEq c p && lowerEq cs ps
  | _, _ => false

/-- `int()` of a nonempty digit string. -/
def natOfDigits (ds : List Char) : Nat :=
  ds.foldl (fun a c => 10 * a + digitVal c) 0

/-! ## The duration regex `(\d+)\s*(day|month)s?`

`process_contracts.py` applies it with `re.match` (anchored at the start),
`verify_end_date_calculation.py` with `re.search` (first matching
position).  The returned pair is `(int(group(1)), group(2))`, where
`group(2)` is the matched unit text in its original case. -/

/-- Attempt the duration pattern at the start of `cs`. -/
def tryDuration (cs : List Char) : Option (Nat × List Char) :=
  let digits := cs.takeWhile isDigitChar
  if digits.isEmpty then none
  else
    let r2 := (cs.dropWhile isDigitChar).dropWhile isPySpace
    if lowerEq (r2.take 3) ("day".toList) then some (natOfDigits digits, r2.take 3)
    else if lowerEq (r2.take 5) ("month".toList) then some (natOfDigits digits, r2.take 5)
    else none

/-- `re.search` semantics: try the pattern at each position, leftmost wins. -/
def searchDuration : List Char → Option (Nat × List Char)
  | [] => none
  | c :: rest =>
    match tryDuration (c :: rest) with
    | some r => some r
    | none => searchDuration rest

/-! ## strptime models for the concrete formats used

Each `%`-token of the formats in the source is modelled by its candidate
matches in the alternation order Python's `_strptime` regex uses; a format
parser composes them with the regex engine's backtracking (first overall
success), and `strptime` then requires full consumption of the input and a
constructible `datetime`. -/

/-- Candidate matches for `%d` (`3[01]|[12]\d|0[1-9]|[1-9]`), in regex
alternation order: the two-digit alternatives, then the one-digit one. -/
def dayCands : List Char → List (Nat × List Char)
  | [] => []
  | [c] => if isDigitChar c && c != '0' then [(digitVal c, [])] else []
  | c1 :: c2 :: rest =>
    (if (c1 == '3' && (c2 == '0' || c2 == '1'))
        || ((c1 == '1' || c1 == '2') && isDigitChar c2)
        || (c1 == '0' && isDigitChar c2 && c2 != '0')
     then [(10 * digitVal c1 + digitVal c2, rest)] else [])
    ++ (if isDigitChar c1 && c1 != '0' then [(digitVal c1, c2 :: rest)] else [])

/-- Candidate matches for `%m` (`1[0-2]|0[1-9]|[1-9]`). -/
def monthCands : List Char → List (Nat × List Char)
  | [] => []
  | [c] => if isDigitChar c && c != '0' then [(digitVal c, [])] else []
  | c1 :: c2 :: rest =>
    (if (c1 == '1' && (c2 == '0' || c2 == '1' || c2 == '2'))
        || (c1 == '0' && isDigitChar c2 && c2 != '0')
     then [(10 * digitVal c1 + digitVal c2, rest)] else [])
    ++ (if isDigitChar c1 && c1 != '0' then [(digitVal c1, c2 :: rest)] else [])

/-- `%Y` (`\d\d\d\d`): exactly four digits. -/
def yearCand : List Char → Option (Nat × List Char)
  | a :: b :: c :: d :: rest =>
    if isDigitChar a && isDigitChar b && isDigitChar c && isDigitChar d then
      some (1000 * digitVal a + 100 * digitVal b + 10 * digitVal c + digitVal d, rest)
    else none
  | _ => none

/-- A literal character of a format string. -/
def litCand (ch : Char) : List Char → Option (List Char)
  | c :: rest => if c == ch then some rest else none
  | [] => none

/-- Whitespace in a format string is compiled to `\s+`: one or more
whitespace characters, matched greedily (everything that follows a
whitespace run in these formats is non-whitespace, so greed is exact). -/
def wsCand : List Char → Option (List Char)
  | c :: rest => if isPySpace c then some (rest.dropWhile isPySpace) else none
  | [] => none

/-- The English month names with their numbers, in the order `_strptime`
places them in the `%B` alternation (sorted by length, descending, stable). -/
def monthNames : List (List Char × Nat) :=
  [("september".toList, 9), ("february".toList, 2), ("november".toList, 11),
   ("december".toList, 12), ("january".toList, 1), ("october".toList, 10),
   ("august".toList, 8), ("march".toList, 3), ("april".toList, 4),
   ("june".toList, 6), ("july".toList, 7), ("may".toList, 5)]

/-- Case-insensitively strip a lowercase pattern from the front of the
input, returning the remainder. -/
def ciStrip : List Char → List Char → Option (List Char)
  | [], cs => some cs
  | _ :: _, [] => none
  | p :: ps, c :: cs => if ciEq c p then ciStrip ps cs else none

/-- `%B`: the month-name alternation, candidates in alternation order (the
engine backtracks into later alternatives when the continuation fails; in
fact no month name is a prefix of another, so at most one ever matches). -/
def monthNameCands (cs : List Char) : List (Nat × List Char) :=
  monthNames.filterMap (fun nm => (ciStrip nm.1 cs).map (fun r => (nm.2, r)))

/-- `%d-%m-%Y` as a regex over the input, with backtracking across the
candidate lists; returns `(day, month, year, rest)` of the first match. -/
def parseFmt_dmY (cs : List Char) : Option (Nat × Nat × Nat × List Char) :=
  (dayCands cs).findSome? fun dc =>
  (litCand '-' dc.2).bind fun r2 =>
  (monthCands r2).findSome? fun mc =>
  (litCand '-' mc.2).bind fun r4 =>
  (yearCand r4).map fun yc => (dc.1, mc.1, yc.1, yc.2)

/-- `%d %B %Y`. -/
def parseFmt_dBY (cs : List Char) : Option (Nat × Nat × Nat × List Char) :=
  (dayCands cs).findSome? fun dc =>
  (wsCand dc.2).bind fun r2 =>
  (monthNameCands r2).findSome? fun mc =>
  (wsCand mc.2).bind fun r4 =>
  (yearCand r4).map fun yc => (dc.1, mc.1, yc.1, yc.2)

/-- `%B %Y`; with no `%d` in the format the day defaults to 1 (and the
source additionally calls `.replace(day = 1)`, which is the identity). -/
def parseFmt_BY (cs : List Char) : Option (Nat × Nat × Nat × List Char) :=
  (monthNameCands cs).findSome? fun mc =>
  (wsCand mc.2).bind fun r2 =>
  (yearCand r2).map fun yc => (1, mc.1, yc.1, yc.2)

/-- `%Y-%m-%d`. -/
def parseFmt_Ymd (cs : List Char) : Option (Nat × Nat × Nat × List Char) :=
  (yearCand cs).bind fun yc =>
  (litCand '-' yc.2).bind fun r2 =>
  (monthCands r2).findSome? fun mc =>
  (litCand '-' mc.2).bind fun r4 =>
  (dayCands r4).findSome? fun dc => some (dc.1, mc.1, yc.1, dc.2)

/-- `%B %d, %Y` (the first format tried by `process_contracts.py`). -/
def parseFmt_BdY (cs : List Char) : Option (Nat × Nat × Nat × List Char) :=
  (monthNameCands cs).findSome? fun mc =>
  (wsCand mc.2).bind fun r2 =>
  (dayCands r2).findSome? fun dc =>
  (litCand ',' dc.2).bind fun r4 =>
  (wsCand r4).bind fun r5 =>
  (yearCand r5).map fun yc => (dc.1, mc.1, yc.1, yc.2)

/-- `datetime.strptime(input, fmt)`: the regex produces its first match (the
format parsers above), then `strptime` requires the whole input consumed and
builds the `datetime`, whose constructor validates the date; any failure is
a `ValueError`, i.e. `none`. -/
def runFormat (p : List Char → Option (Nat × Nat × Nat × List Char))
    (cs : List Char) : Option Date :=
  match p cs with
  | some (d, m, y, rest) => if rest.isEmpty then mkDatetime y m d else none
  | none => none

/-! ## The start-date cleanup in `verify_end_date_calculation.py`:
`re.sub(r"(\d+)(st|nd|rd|th)", r"\1", s.replace(',', ''), re.IGNORECASE).strip()` -/

/-- Does the pair `(a, b)` match the ordinal-suffix alternation
`st|nd|rd|th` (case-insensitively)? -/
def suffix2 (a b : Char) : Bool :=
  (ciEq a 's' && ciEq b 't') || (ciEq a 'n' && ciEq b 'd')
    || (ciEq a 'r' && ciEq b 'd') || (ciEq a 't' && ciEq b 'h')

/-- One left-to-right pass of `re.sub(r"(\d+)(st|nd|rd|th)", r"\1", ...)`:
a two-letter ordinal suffix is dropped exactly when the previously emitted
character was a digit (so some `\d+` ends right before it); scanning resumes
after the dropped suffix, per `re.sub`'s non-overlapping semantics. -/
def ordinalSubAux : Bool → List Char → List Char
  | _, [] => []
  | prevDigit, a :: rest =>
    if isDigitChar a then a :: ordinalSubAux true rest
    else
      match rest with
      | b :: rest2 =>
        if prevDigit && suffix2 a b then ordinalSubAux false rest2
        else a :: ordinalSubAux false (b :: rest2)
      | [] => [a]

/-- The ordinal-suffix removal applied to a whole string. -/
def ordinalSub (cs : List Char) : List Char := ordinalSubAux false cs

/-- `str.strip()` (whitespace from both ends). -/
def pyStripList (cs : List Char) : List Char :=
  ((cs.dropWhile isPySpace).reverse.dropWhile isPySpace).reverse

/-- The full cleanup: drop commas, drop ordinal suffixes, strip. -/
def cleanDateChars (cs : List Char) : List Char :=
  pyStripList (ordinalSub (cs.filter (fun c => !(c == ','))))

/-! ## Rendering (`strftime`) -/

/-- Zero-pad to two digits (`%d`, `%m`). -/
def pad2 (n : Nat) : String :=
  if n < 10 then "0" ++ toString n else toString n

/-- `%Y` as CPython renders it on glibc: the year number, not padded. -/
def renderYear (n : Nat) : String := toString n

/-- `strftime("%Y-%m-%d")`. -/
def strftime_Ymd (d : Date) : String :=
  renderYear d.year ++ "-" ++ pad2 d.month ++ "-" ++ pad2 d.day

/-- `strftime("%d-%m-%Y")`. -/
def strftime_dmY (d : Date) : String :=
  pad2 d.day ++ "-" ++ pad2 d.month ++ "-" ++ renderYear d.year

/-- Outcome of one `calculate_end_date` call, before rendering: either an
end date, one of the three sentinel strings, or an uncaught exception from
`datetime` arithmetic (`raised`). -/
inductive DateResult where
  | date (d : Date)
  | invalidStartDate
  | invalidDurationFormat
  | invalidDurationUnit
  | raised
deriving DecidableEq

/-- The `day`-unit branch, identical in both sources:
`end_date = start_date + timedelta(days=value)`. -/
def dayAddResult (start : Date) (value : Nat) : DateResult :=
  match addDays start value with
  | some e => .date e
  | none => .raised

namespace VerifyEndDate

/-- The format list of `verify_end_date_calculation.calculate_end_date`,
tried in order with a `break` on the first success. -/
def dateFormats : List (List Char → Option (Nat × Nat × Nat × List Char)) :=
  [Contracts.parseFmt_dmY, Contracts.parseFmt_dBY,
   Contracts.parseFmt_BY, Contracts.parseFmt_Ymd]

/-- Start-date parsing of `verify_end_date_calculation.py`: clean the
string, then the first format that parses wins. -/
def parseStartDate (s : String) : Option Date :=
  dateFormats.findSome? (fun f => runFormat f (cleanDateChars s.toList))

/-- The `month`-unit branch of the verification script: total months, carry
via `(total - 1) // 12`, last day of the target month computed from the
first of the following month minus one day, then the clamped `datetime`. -/
def monthAddResult (start : Date) (value : Nat) : DateResult :=
  let total := start.month + value
  let year := start.year + (total - 1) / 12
  let month := (total - 1) % 12 + 1
  let nextY := if month + 1 > 12 then year + 1 else year
  let nextM := if month + 1 > 12 then 1 else month + 1
  match mkDatetime nextY nextM 1 with
  | none => .raised
  | some firstOfNext =>
    match subDay firstOfNext with
    | none => .raised
    | some lastOfTarget =>
      match mkDatetime year month (min start.day lastOfTarget.day) with
      | none => .raised
      | some e => .date e

/-- `verify_end_date_calculation.calculate_end_date`, up to rendering. -/
def calculate_end_date_core (startStr durStr : String) : DateResult :=
  match parseStartDate startStr with
  | none => .invalidStartDate
  | some start =>
    match searchDuration durStr.toList with
    | none => .invalidDurationFormat
    | some (value, unitChars) =>
      if lowerEq unitChars ("day".toList) then dayAddResult start value
      else if lowerEq unitChars ("month".toList) then monthAddResult start value
      else .invalidDurationUnit

/-- The string-level `calculate_end_date` of the verification script;
`none` stands for an uncaught exception. -/
def calculate_end_date (startStr durStr : String) : Option String :=
  match calculate_end_date_core startStr durStr with
  | .date e => some (strftime_dmY e)
  | .invalidStartDate => some "Invalid Start Date Format"
  | .invalidDurationFormat => some "Invalid Duration Format"
  | .invalidDurationUnit => some "Invalid Duration Unit"
  | .raised => none

end VerifyEndDate

namespace ProcessContracts

/-- Start-date parsing of `process_contracts.calculate_end_date`: the raw
string is tried against `%B %d, %Y`, then `%Y-%m-%d`, no cleanup. -/
def parseStartDate (s : String) : Option Date :=
  [Contracts.parseFmt_BdY, Contracts.parseFmt_Ymd].findSome?
    (fun f => runFormat f s.toList)

/-- The `month`-unit branch of `process_contracts.py`: year gets
`value // 12`, month gets `value % 12` with a single carry, and the day is
clamped against the target month's length (computed from the first of the
next month minus a day when `month < 12`, hard-coded 31 for December). -/
def monthAddResult (start : Date) (value : Nat) : DateResult :=
  let year0 := start.year + value / 12
  let month0 := start.month + value % 12
  let year := if month0 > 12 then year0 + 1 else year0
  let month := if month0 > 12 then month0 - 12 else month0
  let lastDay? : Option Nat :=
    if month < 12 then
      match mkDatetime year (month + 1) 1 with
      | none => none
      | some firstOfNext => (subDay firstOfNext).map (fun p => p.day)
    else some 31
  match lastDay? with
  | none => .raised
  | some lastDay =>
    match mkDatetime year month (min start.day lastDay) with
    | none => .raised
    | some e => .date e

/-- `process_contracts.calculate_end_date`, up to rendering.  The duration
regex is applied with `re.match` (anchored). -/
def calculate_end_date_core (startStr durStr : String) : DateResult :=
  match parseStartDate startStr with
  | none => .invalidStartDate
  | some start =>
    match tryDuration durStr.toList with
    | none => .invalidDurationFormat
    | some (value, unitChars) =>
      if lowerEq unitChars ("day".toList) then dayAddResult start value
      else if lowerEq unitChars ("month".toList) then monthAddResult start value
      else .invalidDurationUnit

/-- The string-level `calculate_end_date` of `process_contracts.py`;
`none` stands for an uncaught exception. -/
def calculate_end_date (startStr durStr : String) : Option String :=
  match calculate_end_date_core startStr durStr with
  | .date e => some (strftime_Ymd e)
  | .invalidStartDate => some "Invalid Start Date Format"
  | .invalidDurationFormat => some "Invalid Duration Format"
  | .invalidDurationUnit => some "Invalid Duration Unit"
  | .raised => none

end ProcessContracts

/-! ## Page-importance scan (`_process_page_chunk`, `find_important_pages`)

A document is abstracted to the list of per-page texts as the extraction
pipeline (direct text, OCR fallback on sparse/failed extraction) finally
yields them, and `m : String → Bool` abstracts "some registered
`SEARCH_TERMS` pattern matches this text under `re.search(..., IGNORECASE)`".
The set logic around those collaborators is embedded exactly. -/

/-- One loop step of `_process_page_chunk`: on a match at page `p`, add `p`
and, when it is still a valid index, `p + 1`. -/
def pageMatchAdd (pages : List String) (m : String → Bool)
    (acc : Finset ℕ) (p : ℕ) : Finset ℕ :=
  if m (pages.getD p "") then
    insert p acc ∪ (if p + 1 < pages.length then {p + 1} else ∅)
  else acc

/-- `_process_page_chunk(pdf, start, stop)`: iterate pages
`start, ..., stop - 1`, breaking at the page count, and collect the local
important-page set. -/
def processPageChunk (pages : List String) (m : String → Bool)
    (start stop : ℕ) : Finset ℕ :=
  (List.range' start (min stop pages.length - start)).foldl
    (pageMatchAdd pages m) ∅

/-- The chunk starts produced by `range(0, num_pages, chunk_size)` for a
positive `chunkSize`. -/
def chunkStarts (numPages chunkSize : ℕ) : List ℕ :=
  (List.range ((numPages + chunkSize - 1) / chunkSize)).map (· * chunkSize)

/-- `find_important_pages(pdf, chunk_size)`: union of all chunk results
into the unconditional `{0, 1}` seed, returned as a sorted list. -/
def find_important_pages (pages : List String) (m : String → Bool)
    (chunkSize : ℕ) : List ℕ :=
  ((chunkStarts pages.length chunkSize).foldl
      (fun acc s =>
        acc ∪ processPageChunk pages m s (min (s + chunkSize) pages.length))
      {0, 1}).sort (· ≤ ·)

/-- `create_short_pdf` page copying: each listed index strictly below the
page count contributes its page, in list order; out-of-range indices are
skipped. -/
def create_short_pdf_pages (pages : List α) (pageNumbers : List ℕ) : List α :=
  pageNumbers.filterMap (fun p => if p < pages.length then pages[p]? else none)

/-! ## The reduced-document cache check in `process_contract` -/

/-- A filesystem fragment: path to size of the file stored there. -/
structure FileSys where
  files : List (String × ℕ)
deriving DecidableEq

/-- `os.path.splitext(p)[0]` for a path without a directory separator:
the extension starts at the last dot, except that dots leading the
name do not start an extension. -/
def splitextRoot (cs : List Char) : List Char :=
  let lead := cs.takeWhile (fun c => c == '.')
  let rest := cs.dropWhile (fun c => c == '.')
  if rest.contains '.' then
    lead ++ ((rest.reverse.dropWhile (fun c => !(c == '.'))).tail).reverse
  else cs

/-- The deterministic derived path of the reduced document. -/
def shortPdfPath (contractPdf : String) : String :=
  String.mk (splitextRoot contractPdf.toList) ++ "_short.pdf"

/-- What the caching step of `process_contract` did. -/
structure CacheOutcome where
  scanned : Bool
  wrote : Bool
  fsAfter : FileSys
  shortPath : String
deriving DecidableEq

/-- The cache check of `process_contract`: when the derived artifact
exists with positive size it is reused (no scan, no write); otherwise the
scan runs and the reduced document is written (its resulting size is
abstracted as `newSize`). -/
def process_contract_cache (fs : FileSys) (contractPdf : String)
    (newSize : ℕ) : CacheOutcome :=
  match fs.files.lookup (shortPdfPath contractPdf) with
  | some n =>
    if 0 < n then ⟨false, false, fs, shortPdfPath contractPdf⟩
    else ⟨true, true, ⟨(shortPdfPath contractPdf, newSize) :: fs.files⟩,
      shortPdfPath contractPdf⟩
  | none => ⟨true, true, ⟨(shortPdfPath contractPdf, newSize) :: fs.files⟩,
      shortPdfPath contractPdf⟩

/-! ## Extraction call and result post-processing

`json.loads` is abstracted as a decoder `String → Option (List (String ×
String))` returning the key/value pairs of a decoded object (`none` models
`json.JSONDecodeError`); the claims under verification only concern what
the surrounding code does with success or failure of that decoder. -/

/-- Result of `extract_data_with_llm`: whether the model was contacted,
and the string handed back to the caller. -/
structure LLMCall where
  contacted : Bool
  response : String
deriving DecidableEq

/-- `extract_data_with_llm`: when `GOOGLE_API_KEY` is unset (or empty, both
falsy) the function returns the error string before configuring or calling
the model; otherwise the model's raw text (abstracted as `modelResponse`)
is returned. -/
def extract_data_with_llm (apiKey : Option String) (modelResponse : String) :
    LLMCall :=
  if (apiKey.getD "") = "" then ⟨false, "LLM Error: API Key not set"⟩
  else ⟨true, modelResponse⟩

/-- `l` begins with `p` (model of `str.startswith` on character lists). -/
def listLeads : List Char → List Char → Bool
  | [], _ => true
  | _ :: _, [] => false
  | p :: ps, c :: cs => p == c && listLeads ps cs

/-- `s.startswith(pre)`. -/
def pyStartsWith (s pre : String) : Bool := listLeads pre.toList s.toList

/-- `s.endswith(suf)`. -/
def pyEndsWith (s suf : String) : Bool :=
  listLeads suf.toList.reverse s.toList.reverse

/-- The character-index slice `s[7:-3]` of Python followed by `.strip()`. -/
def sliceStrip (s : String) : String :=
  String.mk (pyStripList ((s.toList.drop 7).take ((s.toList.drop 7).length - 3)))

/-- The fence-stripping step: a response that starts with the json-tagged
fence and ends with a fence loses both (`s[len("```json"):-len("```")]`)
and is stripped of surrounding whitespace before decoding. -/
def stripFences (s : String) : String :=
  if pyStartsWith s "```json" && pyEndsWith s "```" then sliceStrip s
  else s

/-- Dictionary assignment `d[k] = v` on an association list (the list is
read through `lookup`, so the representation keeps one binding per key). -/
def dictSet (kvs : List (String × String)) (k v : String) :
    List (String × String) :=
  kvs.filter (fun p => !(p.1 == k)) ++ [(k, v)]

/-- Python truthiness of `d.get(k)` for string values: present and
nonempty. -/
def truthyLookup (kvs : List (String × String)) (k : String) : Bool :=
  match kvs.lookup k with
  | some v => !(v == "")
  | none => false

/-- The end-date step of `process_contract`: when both "Start Date" and
"Project Duration" are truthy, `calculate_end_date` fills "End Date" (an
exception escaping it is caught by the surrounding handler, leaving the
data unchanged); otherwise "End Date" is set to "Not Found". -/
def endDateStep (kvs : List (String × String)) : List (String × String) :=
  if truthyLookup kvs "Start Date" && truthyLookup kvs "Project Duration" then
    match ProcessContracts.calculate_end_date
        ((kvs.lookup "Start Date").getD "") ((kvs.lookup "Project Duration").getD "") with
    | some r => dictSet kvs "End Date" r
    | none => kvs
  else dictSet kvs "End Date" "Not Found"

/-- The response post-processing of `process_contract`: strip fences, try
to decode; on decode failure keep the raw text under "LLM_Raw_Response";
then run the end-date step. -/
def postprocessResponse (decode : String → Option (List (String × String)))
    (response : String) : List (String × String) :=
  let unwrapped := stripFences response
  let extracted :=
    match decode unwrapped with
    | some kvs => kvs
    | none => dictSet [] "LLM_Raw_Response" unwrapped
  endDateStep extracted

/-- The per-column value of the output row built in `main` (for results
without a nested "Location" mapping): "File Name" is overwritten with the
document name, the renamed contract-value column reads "Contract Value",
and every other column reads itself, absent or null values becoming "". -/
def rowValue (extracted : List (String × String)) (fileName col : String) :
    String :=
  if col == "File Name" then fileName
  else if col == "Contract Value (₹ Cr)" then (extracted.lookup "Contract Value").getD ""
  else if col == "Project Milestones List" then (extracted.lookup col).getD ""
  else if col == "Payment Schedule" then (extracted.lookup col).getD ""
  else (extracted.lookup col).getD ""

/-- The fallback output columns hard-coded in `main`. -/
def fallbackOutputColumns : List String :=
  ["File Name", "Name of the Authority", "Name of the Contractor",
   "Project Name", "Start Date", "Project Duration", "End Date",
   "Contract Value", "Payment Schedule",
   "Location - State", "Location - District", "Location - Towns covered",
   "Project Milestones List"]

/-- The per-document tail of `main`'s loop: run the extraction call and the
post-processing, and emit a row exactly when the extracted dictionary is
truthy (nonempty). -/
def pipelineRow (apiKey : Option String)
    (decode : String → Option (List (String × String)))
    (modelResponse : String) (cols : List String) (fileName : String) :
    Option (List (String × String)) :=
  let call := extract_data_with_llm apiKey modelResponse
  let extracted := postprocessResponse decode call.response
  if extracted.isEmpty then none
  else some (cols.map (fun c => (c, rowValue extracted fileName c)))

/-- A date `datetime` can hold: the validity condition its constructor
enforces. -/
def validDate (e : Date) : Prop :=
  1 ≤ e.year ∧ e.year ≤ 9999 ∧ 1 ≤ e.month ∧ e.month ≤ 12 ∧
    1 ≤ e.day ∧ e.day ≤ daysInMonth e.year e.month

/-- The month-arithmetic specification stated by the claims: add `n` to the
month count, carry into the year via integer division, and clamp the
day-of-month to the last day of the resulting month. -/
def monthTarget (start : Date) (n : Nat) : Date :=
  let total := start.month + n
  let y := start.year + (total - 1) / 12
  let m := (total - 1) % 12 + 1
  ⟨y, m, min start.day (daysInMonth y m)⟩

end Contracts

/-! # Theorems -/

namespace Contracts

section Scanner

variable (pages : List String) (m : String → Bool)

lemma mem_pageMatchAdd {acc : Finset ℕ} {x p : ℕ} :
    x ∈ pageMatchAdd pages m acc p ↔
      x ∈ acc ∨ (m (pages.getD p "") = true ∧
        (x = p ∨ (x = p + 1 ∧ p + 1 < pages.length))) := by
  unfold pageMatchAdd
  by_cases hm : m (pages.getD p "") = true
  · rw [if_pos hm]
    by_cases hl : p + 1 < pages.length
    · rw [if_pos hl]
      simp only [Finset.mem_union, Finset.mem_insert, Finset.mem_singleton, hm,
        true_and, hl, and_true]
      tauto
    · rw [if_neg hl]
      simp only [Finset.union_empty, Finset.mem_insert, hm, true_and, hl,
        and_false, or_false]
      tauto
  · rw [if_neg hm]
    simp only [hm, Bool.false_eq_true, false_and, or_false]

lemma mem_foldl_pageMatchAdd (l : List ℕ) (acc : Finset ℕ) (x : ℕ) :
    x ∈ l.foldl (pageMatchAdd pages m) acc ↔
      x ∈ acc ∨ ∃ p ∈ l, m (pages.getD p "") = true ∧
        (x = p ∨ (x = p + 1 ∧ p + 1 < pages.length)) := by
  induction l generalizing acc with
  | nil => simp
  | cons a t ih =>
    rw [List.foldl_cons, ih, mem_pageMatchAdd]
    simp only [List.mem_cons]
    constructor
    · rintro ((h | h) | ⟨p, hp, h⟩)
      · exact Or.inl h
      · exact Or.inr ⟨a, Or.inl rfl, h⟩
      · exact Or.inr ⟨p, Or.inr hp, h⟩
    · rintro (h | ⟨p, (rfl | hp), h⟩)
      · exact Or.inl (Or.inl h)
      · exact Or.inl (Or.inr h)
      · exact Or.inr ⟨p, hp, h⟩

lemma mem_processPageChunk {start stop x : ℕ} :
    x ∈ processPageChunk pages m start stop ↔
      ∃ p, start ≤ p ∧ p < min stop pages.length ∧ m (pages.getD p "") = true ∧
        (x = p ∨ (x = p + 1 ∧ p + 1 < pages.length)) := by
  unfold processPageChunk
  rw [mem_foldl_pageMatchAdd]
  simp only [Finset.not_mem_empty, false_or, List.mem_range'_1]
  constructor
  · rintro ⟨p, ⟨h1, h2⟩, h3, h4⟩; exact ⟨p, h1, by omega, h3, h4⟩
  · rintro ⟨p, h1, h2, h3, h4⟩; exact ⟨p, ⟨h1, by omega⟩, h3, h4⟩

lemma processPageChunk_lt {start stop x : ℕ}
    (h : x ∈ processPageChunk pages m start stop) : x < pages.length := by
  rcases (mem_processPageChunk pages m).mp h with ⟨p, _, h2, _, (rfl | ⟨rfl, h4⟩)⟩
  · omega
  · exact h4

/-- Claim C5: when page `p` of the scanned range matches a registered
search term, the chunk's local result set contains `p`, and contains
`p + 1` exactly when `p + 1` is a valid page index. -/
theorem c5_match_adds_page_and_spill
    (pages : List String) (m : String → Bool) (start stop p : ℕ)
    (h1 : start ≤ p) (h2 : p < stop) (h3 : p < pages.length)
    (h4 : m (pages.getD p "") = true) :
    p ∈ processPageChunk pages m start stop ∧
      (p + 1 ∈ processPageChunk pages m start stop ↔ p + 1 < pages.length) := by
  refine ⟨(mem_processPageChunk pages m).mpr ⟨p, h1, by omega, h4, Or.inl rfl⟩, ?_, ?_⟩
  · intro hmem; exact processPageChunk_lt pages m hmem
  · intro hlt
    exact (mem_processPageChunk pages m).mpr ⟨p, h1, by omega, h4, Or.inr ⟨rfl, hlt⟩⟩

/-- Witness for C5 on a concrete two-page document with a match on page 0. -/
theorem c5_match_adds_page_and_spill_witness :
    0 ∈ processPageChunk ["agreement entered into", "annex"]
        (fun s => s == "agreement entered into") 0 2 ∧
      (0 + 1 ∈ processPageChunk ["agreement entered into", "annex"]
          (fun s => s == "agreement entered into") 0 2 ↔
        0 + 1 < (["agreement entered into", "annex"] : List String).length) :=
  c5_match_adds_page_and_spill ["agreement entered into", "annex"]
    (fun s => s == "agreement entered into") 0 2 0
    (by decide) (by decide) (by decide) (by decide)

lemma mem_foldl_union (f : ℕ → Finset ℕ) (l : List ℕ) (init : Finset ℕ) (x : ℕ) :
    x ∈ l.foldl (fun acc s => acc ∪ f s) init ↔ x ∈ init ∨ ∃ s ∈ l, x ∈ f s := by
  induction l generalizing init with
  | nil => simp
  | cons a t ih =>
    rw [List.foldl_cons, ih]
    simp only [Finset.mem_union, List.mem_cons]
    constructor
    · rintro ((h | h) | ⟨s, hs, h⟩)
      · exact Or.inl h
      · exact Or.inr ⟨a, Or.inl rfl, h⟩
      · exact Or.inr ⟨s, Or.inr hs, h⟩
    · rintro (h | ⟨s, (rfl | hs), h⟩)
      · exact Or.inl (Or.inl h)
      · exact Or.inl (Or.inr h)
      · exact Or.inr ⟨s, hs, h⟩

lemma mem_find_important_pages {chunkSize x : ℕ} :
    x ∈ find_important_pages pages m chunkSize ↔
      (x = 0 ∨ x = 1) ∨ ∃ s ∈ chunkStarts pages.length chunkSize,
        x ∈ processPageChunk pages m s (min (s + chunkSize) pages.length) := by
  unfold find_important_pages
  rw [Finset.mem_sort, mem_foldl_union]
  simp

/-- Claim C4 (amended): the scan result always contains indices 0 and 1 and
is sorted ascending; when the document has at least two pages, every index
in it is below the page count.  (For shorter documents the unconditional
`{0, 1}` seed makes the bound fail; see the counterexample.) -/
theorem c4_pageset_invariants (pages : List String) (m : String → Bool)
    (chunkSize : ℕ) (_hc : 0 < chunkSize) :
    0 ∈ find_important_pages pages m chunkSize ∧
    1 ∈ find_important_pages pages m chunkSize ∧
    (find_important_pages pages m chunkSize).Sorted (· ≤ ·) ∧
    (2 ≤ pages.length →
      ∀ i ∈ find_important_pages pages m chunkSize, i < pages.length) := by
  refine ⟨(mem_find_important_pages pages m).mpr (Or.inl (Or.inl rfl)),
          (mem_find_important_pages pages m).mpr (Or.inl (Or.inr rfl)),
          Finset.sort_sorted _ _, ?_⟩
  intro h2 i hi
  rcases (mem_find_important_pages pages m).mp hi with ((rfl | rfl) | ⟨s, _, hmem⟩)
  · omega
  · omega
  · exact processPageChunk_lt pages m hmem

/-- Witness for C4 (amended) on a concrete two-page document. -/
theorem c4_pageset_invariants_witness :
    0 ∈ find_important_pages ["a", "b"] (fun _ => false) 50 ∧
    1 ∈ find_important_pages ["a", "b"] (fun _ => false) 50 ∧
    (find_important_pages ["a", "b"] (fun _ => false) 50).Sorted (· ≤ ·) ∧
    (2 ≤ (["a", "b"] : List String).length →
      ∀ i ∈ find_important_pages ["a", "b"] (fun _ => false) 50,
        i < (["a", "b"] : List String).length) :=
  c4_pageset_invariants ["a", "b"] (fun _ => false) 50 (by decide)

/-- Counterexample to C4 as stated: on a one-page document the returned
page set is `[0, 1]`, whose element `1` is not below the page count. -/
theorem c4_counterexample :
    ¬ (∀ i ∈ find_important_pages ["only page"] (fun _ => false) 50,
        i < (["only page"] : List String).length) := by
  intro h
  have h1 : (1 : ℕ) ∈ find_important_pages ["only page"] (fun _ => false) 50 :=
    (mem_find_important_pages _ _).mpr (Or.inl (Or.inr rfl))
  exact absurd (h 1 h1) (by simp)

end Scanner

section Reducer

lemma filterMap_bounded_get (pages : List α) :
    ∀ l : List ℕ, (∀ p ∈ l, p < pages.length) →
      (l.filterMap (fun p => pages[p]?)).length = l.length := by
  intro l
  induction l with
  | nil => intro; rfl
  | cons a t ih =>
    intro h
    have ha : a < pages.length := h a (by simp)
    rw [List.filterMap_cons, List.getElem?_eq_getElem ha]
    simp [ih (fun p hp => h p (by simp [hp]))]

/-- Claim C6: the reduced document copies exactly the in-range indices of
the page set, in their (ascending) order; out-of-range indices are
silently skipped. -/
theorem c6_reduced_document (pages : List α) (nums : List ℕ)
    (h : nums.Sorted (· < ·)) :
    create_short_pdf_pages pages nums =
        (nums.filter (fun p => p < pages.length)).filterMap (fun p => pages[p]?) ∧
      (nums.filter (fun p => p < pages.length)).Sorted (· < ·) ∧
      (create_short_pdf_pages pages nums).length =
        (nums.filter (fun p => p < pages.length)).length := by
  have key : ∀ l : List ℕ,
      l.filterMap (fun p => if p < pages.length then pages[p]? else none) =
        (l.filter (fun p => p < pages.length)).filterMap (fun p => pages[p]?) := by
    intro l
    induction l with
    | nil => rfl
    | cons a t ih =>
      by_cases ha : a < pages.length <;>
        simp [List.filterMap_cons, List.filter_cons, ha, ih]
  refine ⟨key nums, h.filter _, ?_⟩
  have : create_short_pdf_pages pages nums =
      (nums.filter (fun p => p < pages.length)).filterMap (fun p => pages[p]?) :=
    key nums
  rw [this, filterMap_bounded_get]
  intro p hp
  simpa using (List.mem_filter.mp hp).2

/-- Witness for C6 on a concrete document and page set. -/
theorem c6_reduced_document_witness :
    create_short_pdf_pages ["p0", "p1", "p2"] [0, 2, 7] =
        (([0, 2, 7] : List ℕ).filter
          (fun p => p < (["p0", "p1", "p2"] : List String).length)).filterMap
          (fun p => (["p0", "p1", "p2"] : List String)[p]?) ∧
      (([0, 2, 7] : List ℕ).filter
        (fun p => p < (["p0", "p1", "p2"] : List String).length)).Sorted (· < ·) ∧
      (create_short_pdf_pages ["p0", "p1", "p2"] [0, 2, 7]).length =
        (([0, 2, 7] : List ℕ).filter
          (fun p => p < (["p0", "p1", "p2"] : List String).length)).length :=
  c6_reduced_document ["p0", "p1", "p2"] [0, 2, 7] (by decide)

end Reducer

section Cache

/-- Claim C7: when the derived reduced-document artifact exists with
positive size, the caching step performs no scan and no write and leaves
the filesystem unchanged. -/
theorem c7_cache_short_circuit (fs : FileSys) (f : String) (sz n : ℕ)
    (h1 : fs.files.lookup (shortPdfPath f) = some n) (h2 : 0 < n) :
    process_contract_cache fs f sz =
      ⟨false, false, fs, shortPdfPath f⟩ := by
  unfold process_contract_cache
  rw [h1]
  exact if_pos h2

/-- Witness for C7 with a concrete cached artifact. -/
theorem c7_cache_short_circuit_witness :
    process_contract_cache ⟨[("contract_short.pdf", 5)]⟩ "contract.pdf" 9 =
      ⟨false, false, ⟨[("contract_short.pdf", 5)]⟩, shortPdfPath "contract.pdf"⟩ :=
  c7_cache_short_circuit ⟨[("contract_short.pdf", 5)]⟩ "contract.pdf" 9 5
    (by decide) (by decide)

end Cache

section PostProcessor

lemma postprocess_fail (decode : String → Option (List (String × String)))
    (resp : String) (h : decode (stripFences resp) = none) :
    postprocessResponse decode resp =
      [("LLM_Raw_Response", stripFences resp), ("End Date", "Not Found")] := by
  simp only [postprocessResponse, h]
  rfl

/-- Claim C8 (amended): a fenced response is unwrapped before decoding; on
decode failure the raw (unwrapped) text is kept under the fallback field,
every schema column other than "File Name" and "End Date" maps to the
empty string ("End Date" is set to "Not Found" by the end-date step), and
a row is still emitted. -/
theorem c8_decode_failure_fallback :
    (∀ s : String, pyStartsWith s "```json" = true → pyEndsWith s "```" = true →
      stripFences s = sliceStrip s) ∧
    (∀ (decode : String → Option (List (String × String))) (resp : String),
      decode (stripFences resp) = none →
        postprocessResponse decode resp =
          [("LLM_Raw_Response", stripFences resp), ("End Date", "Not Found")]) ∧
    (∀ (decode : String → Option (List (String × String))) (resp file col : String),
      decode (stripFences resp) = none →
        ¬ col = "File Name" → ¬ col = "End Date" → ¬ col = "LLM_Raw_Response" →
        rowValue (postprocessResponse decode resp) file col = "") ∧
    (∀ (apiKey : Option String) (decode : String → Option (List (String × String)))
        (modelResponse : String) (cols : List String) (file : String),
      decode (stripFences (extract_data_with_llm apiKey modelResponse).response) = none →
        (pipelineRow apiKey decode modelResponse cols file).isSome = true) := by
  refine ⟨?_, postprocess_fail, ?_, ?_⟩
  · intro s h1 h2
    unfold stripFences
    rw [if_pos (by rw [h1, h2]; rfl)]
  · intro decode resp file col h hFN hED hLR
    rw [postprocess_fail decode resp h]
    have bFN : (col == "File Name") = false := by simp [hFN]
    have bED : (col == "End Date") = false := by simp [hED]
    have bLR : (col == "LLM_Raw_Response") = false := by simp [hLR]
    simp only [rowValue, bFN, Bool.false_eq_true, if_false]
    split
    · rfl
    · split
      · simp [List.lookup, bLR, bED]
      · split
        · simp [List.lookup, bLR, bED]
        · simp [List.lookup, bLR, bED]
  · intro apiKey decode modelResponse cols file h
    simp only [pipelineRow]
    rw [postprocess_fail decode _ h]
    rfl

/-- Witness for C8 (amended) at a concrete undecodable response. -/
theorem c8_decode_failure_fallback_witness :
    stripFences "```json not an object ```" =
        sliceStrip "```json not an object ```" ∧
      postprocessResponse (fun _ => none) "plainly not json" =
        [("LLM_Raw_Response", stripFences "plainly not json"), ("End Date", "Not Found")] ∧
      rowValue (postprocessResponse (fun _ => none) "plainly not json") "doc.pdf" "Start Date" = "" ∧
      (pipelineRow (some "key") (fun _ => none) "plainly not json"
        fallbackOutputColumns "doc.pdf").isSome = true :=
  ⟨c8_decode_failure_fallback.1 _ (by decide) (by decide),
   c8_decode_failure_fallback.2.1 _ _ rfl,
   c8_decode_failure_fallback.2.2.1 _ _ _ _ rfl (by decide) (by decide) (by decide),
   c8_decode_failure_fallback.2.2.2 _ _ _ _ _ rfl⟩

/-- Counterexample to C8 as stated: after a decode failure the schema
field "End Date" is emitted as "Not Found", not as an empty string. -/
theorem c8_counterexample :
    "End Date" ∈ fallbackOutputColumns ∧
      rowValue (postprocessResponse (fun _ => none) "model says no") "f.pdf" "End Date"
        = "Not Found" ∧
      ("Not Found" : String) ≠ "" := by
  refine ⟨by decide, ?_, by decide⟩
  rw [postprocess_fail (fun _ => none) _ rfl]
  rfl

/-- Claim C9 (amended): with no credential configured the extraction call
fails fast with its message, before contacting the model; but the pipeline
still emits a row for the document, carrying the error text in the
fallback field. -/
theorem c9_missing_credential :
    (∀ r, extract_data_with_llm none r = ⟨false, "LLM Error: API Key not set"⟩) ∧
    (∀ r, extract_data_with_llm (some "") r = ⟨false, "LLM Error: API Key not set"⟩) ∧
    (∀ (decode : String → Option (List (String × String))) (cols : List String)
        (file r : String),
      decode "LLM Error: API Key not set" = none →
        pipelineRow none decode r cols file =
          some (cols.map (fun c => (c, rowValue
            [("LLM_Raw_Response", "LLM Error: API Key not set"),
             ("End Date", "Not Found")] file c)))) := by
  refine ⟨fun r => rfl, fun r => rfl, ?_⟩
  intro decode cols file r h
  simp only [pipelineRow]
  have hresp : (extract_data_with_llm none r).response = "LLM Error: API Key not set" := rfl
  rw [hresp]
  have hstrip : stripFences "LLM Error: API Key not set" = "LLM Error: API Key not set" := rfl
  rw [postprocess_fail decode _ (by rw [hstrip]; exact h), hstrip]
  rfl

/-- Witness for C9 (amended) at a concrete decoder. -/
theorem c9_missing_credential_witness :
    extract_data_with_llm none "ignored" = ⟨false, "LLM Error: API Key not set"⟩ ∧
      pipelineRow none (fun _ => none) "ignored" fallbackOutputColumns "doc.pdf" =
        some (fallbackOutputColumns.map (fun c => (c, rowValue
          [("LLM_Raw_Response", "LLM Error: API Key not set"),
           ("End Date", "Not Found")] "doc.pdf" c))) :=
  ⟨c9_missing_credential.1 "ignored",
   c9_missing_credential.2.2 (fun _ => none) fallbackOutputColumns "doc.pdf" "ignored" rfl⟩

/-- Counterexample to C9 as stated: with the credential missing, a row is
still produced for the document (the claim asserts none is). -/
theorem c9_counterexample :
    (pipelineRow none (fun _ => none) "irrelevant" fallbackOutputColumns
      "doc.pdf").isSome = true := by
  rfl

end PostProcessor

section Duration

lemma lowerEq_length : ∀ {a b : List Char}, lowerEq a b = true → a.length = b.length := by
  intro a
  induction a with
  | nil => intro b h; cases b with
    | nil => rfl
    | cons x xs => simp [lowerEq] at h
  | cons c cs ih =>
    intro b h
    cases b with
    | nil => simp [lowerEq] at h
    | cons p ps =>
      simp only [lowerEq, Bool.and_eq_true] at h
      simp [ih h.2]

lemma lowerEq_month_not_day {u : List Char}
    (h : lowerEq u ("month".toList) = true) : lowerEq u ("day".toList) = false := by
  cases hd : lowerEq u ("day".toList)
  · rfl
  · have h1 := lowerEq_length h
    have h2 := lowerEq_length hd
    simp at h1 h2
    omega

lemma tryDuration_unit {cs : List Char} {v : ℕ} {u : List Char}
    (h : tryDuration cs = some (v, u)) :
    lowerEq u ("day".toList) = true ∨ lowerEq u ("month".toList) = true := by
  simp only [tryDuration] at h
  split at h
  · exact absurd h (by simp)
  · split at h
    · rename_i hday
      obtain ⟨rfl, rfl⟩ : _ ∧ _ := by
        have := h
        simp only [Option.some.injEq, Prod.mk.injEq] at this
        exact ⟨this.1, this.2⟩
      exact Or.inl hday
    · split at h
      · rename_i hmonth
        obtain ⟨rfl, rfl⟩ : _ ∧ _ := by
          simp only [Option.some.injEq, Prod.mk.injEq] at h
          exact ⟨h.1, h.2⟩
        exact Or.inr hmonth
      · exact absurd h (by simp)

lemma searchDuration_unit : ∀ {cs : List Char} {v : ℕ} {u : List Char},
    searchDuration cs = some (v, u) →
      lowerEq u ("day".toList) = true ∨ lowerEq u ("month".toList) = true := by
  intro cs
  induction cs with
  | nil => intro v u h; simp [searchDuration] at h
  | cons c rest ih =>
    intro v u h
    simp only [searchDuration] at h
    split at h
    · rename_i r hr
      cases h
      exact tryDuration_unit hr
    · exact ih h

lemma matchDuration_search {cs : List Char} {r : ℕ × List Char}
    (h : tryDuration cs = some r) : searchDuration cs = some r := by
  cases cs with
  | nil => simp [tryDuration] at h
  | cons c rest => simp only [searchDuration, h]

lemma VerifyEndDate.verify_core_unit_cases (start : Date) (value : ℕ) (u : List Char)
    (s dur : String) (hp : VerifyEndDate.parseStartDate s = some start)
    (hd : searchDuration dur.toList = some (value, u)) :
    VerifyEndDate.calculate_end_date_core s dur =
      (if lowerEq u ("day".toList) = true then dayAddResult start value
       else if lowerEq u ("month".toList) = true then
        VerifyEndDate.monthAddResult start value
       else .invalidDurationUnit) := by
  unfold VerifyEndDate.calculate_end_date_core
  rw [hp, hd]

lemma ProcessContracts.process_core_unit_cases (start : Date) (value : ℕ) (u : List Char)
    (s dur : String) (hp : ProcessContracts.parseStartDate s = some start)
    (hd : tryDuration dur.toList = some (value, u)) :
    ProcessContracts.calculate_end_date_core s dur =
      (if lowerEq u ("day".toList) = true then dayAddResult start value
       else if lowerEq u ("month".toList) = true then
        ProcessContracts.monthAddResult start value
       else .invalidDurationUnit) := by
  unfold ProcessContracts.calculate_end_date_core
  rw [hp, hd]

lemma dayAddResult_ne_unit (start : Date) (value : ℕ) :
    dayAddResult start value ≠ .invalidDurationUnit := by
  unfold dayAddResult
  cases addDays start value <;> simp

lemma VerifyEndDate.verify_monthAddResult_ne_unit (start : Date) (value : ℕ) :
    VerifyEndDate.monthAddResult start value ≠ .invalidDurationUnit := by
  simp only [VerifyEndDate.monthAddResult]
  split
  · simp
  · split
    · simp
    · split <;> simp

lemma ProcessContracts.process_monthAddResult_ne_unit (start : Date) (value : ℕ) :
    ProcessContracts.monthAddResult start value ≠ .invalidDurationUnit := by
  simp only [ProcessContracts.monthAddResult]
  split
  · simp
  · split <;> simp

/-- Claim C2 (amended): a duration without an integer-plus-day/month token
yields "Invalid Duration Format"; an unrecognized unit such as "5 years"
also fails the regex entirely and yields "Invalid Duration Format" — the
"Invalid Duration Unit" branch is unreachable in both implementations —
and malformed inputs produce sentinel strings, not exceptions. -/
theorem c2_duration_errors :
    (∀ s dur start, VerifyEndDate.parseStartDate s = some start →
      searchDuration dur.toList = none →
        VerifyEndDate.calculate_end_date_core s dur = .invalidDurationFormat) ∧
    (∀ s dur start, ProcessContracts.parseStartDate s = some start →
      tryDuration dur.toList = none →
        ProcessContracts.calculate_end_date_core s dur = .invalidDurationFormat) ∧
    (∀ s dur, VerifyEndDate.calculate_end_date_core s dur ≠ .invalidDurationUnit) ∧
    (∀ s dur, ProcessContracts.calculate_end_date_core s dur ≠ .invalidDurationUnit) ∧
    VerifyEndDate.calculate_end_date "not a date" "3 months"
      = some "Invalid Start Date Format" ∧
    VerifyEndDate.calculate_end_date "2020-01-01" "three months"
      = some "Invalid Duration Format" ∧
    VerifyEndDate.calculate_end_date "2020-01-01" "5 years"
      = some "Invalid Duration Format" := by
  refine ⟨?_, ?_, ?_, ?_, by rfl, by rfl, by rfl⟩
  · intro s dur start hp hd
    unfold VerifyEndDate.calculate_end_date_core
    rw [hp, hd]
  · intro s dur start hp hd
    unfold ProcessContracts.calculate_end_date_core
    rw [hp, hd]
  · intro s dur
    cases hp : VerifyEndDate.parseStartDate s with
    | none =>
      unfold VerifyEndDate.calculate_end_date_core
      rw [hp]
      simp
    | some start =>
      cases hd : searchDuration dur.toList with
      | none =>
        unfold VerifyEndDate.calculate_end_date_core
        rw [hp, hd]
        simp
      | some r =>
        obtain ⟨value, u⟩ := r
        rw [VerifyEndDate.verify_core_unit_cases start value u s dur hp hd]
        rcases searchDuration_unit hd with hu | hu
        · rw [if_pos hu]; exact dayAddResult_ne_unit _ _
        · have hnd := lowerEq_month_not_day hu
          rw [if_neg (by rw [hnd]; exact Bool.false_ne_true), if_pos hu]
          exact VerifyEndDate.verify_monthAddResult_ne_unit _ _
  · intro s dur
    cases hp : ProcessContracts.parseStartDate s with
    | none =>
      unfold ProcessContracts.calculate_end_date_core
      rw [hp]
      simp
    | some start =>
      cases hd : tryDuration dur.toList with
      | none =>
        unfold ProcessContracts.calculate_end_date_core
        rw [hp, hd]
        simp
      | some r =>
        obtain ⟨value, u⟩ := r
        rw [ProcessContracts.process_core_unit_cases start value u s dur hp hd]
        rcases tryDuration_unit hd with hu | hu
        · rw [if_pos hu]; exact dayAddResult_ne_unit _ _
        · have hnd := lowerEq_month_not_day hu
          rw [if_neg (by rw [hnd]; exact Bool.false_ne_true), if_pos hu]
          exact ProcessContracts.process_monthAddResult_ne_unit _ _

/-- Witness for C2 (amended) at concrete malformed durations. -/
theorem c2_duration_errors_witness :
    VerifyEndDate.calculate_end_date_core "2020-01-01" "three months"
        = .invalidDurationFormat ∧
      ProcessContracts.calculate_end_date_core "2020-01-01" " 730 days"
        = .invalidDurationFormat :=
  ⟨c2_duration_errors.1 "2020-01-01" "three months" ⟨2020, 1, 1⟩ (by rfl) (by rfl),
   c2_duration_errors.2.1 "2020-01-01" " 730 days" ⟨2020, 1, 1⟩ (by rfl) (by rfl)⟩

/-- Counterexample to C2 as stated: "5 years" is reported as
"Invalid Duration Format", not "Invalid Duration Unit". -/
theorem c2_counterexample :
    VerifyEndDate.calculate_end_date "2020-01-01" "5 years"
        ≠ some "Invalid Duration Unit" ∧
      ProcessContracts.calculate_end_date "2020-01-01" "5 years"
        ≠ some "Invalid Duration Unit" ∧
      VerifyEndDate.calculate_end_date "2020-01-01" "5 years"
        = some "Invalid Duration Format" ∧
      ProcessContracts.calculate_end_date "2020-01-01" "5 years"
        = some "Invalid Duration Format" := by
  refine ⟨?_, ?_, by rfl, by rfl⟩
  · intro h
    rw [show VerifyEndDate.calculate_end_date "2020-01-01" "5 years"
        = some "Invalid Duration Format" from rfl] at h
    simp at h
  · intro h
    rw [show ProcessContracts.calculate_end_date "2020-01-01" "5 years"
        = some "Invalid Duration Format" from rfl] at h
    simp at h

end Duration

section ParseInversion

lemma mkDatetime_eq_some {y m dd : ℕ} {e : Date} (h : mkDatetime y m dd = some e) :
    e = ⟨y, m, dd⟩ ∧ 1 ≤ y ∧ y ≤ 9999 ∧ 1 ≤ m ∧ m ≤ 12 ∧ 1 ≤ dd ∧
      dd ≤ daysInMonth y m := by
  unfold mkDatetime at h
  split at h
  · rename_i hcond
    injection h with h
    exact ⟨h.symm, hcond.1, hcond.2.1, hcond.2.2.1, hcond.2.2.2.1,
      hcond.2.2.2.2.1, hcond.2.2.2.2.2⟩
  · exact absurd h (by simp)

lemma runFormat_eq_some {p : List Char → Option (ℕ × ℕ × ℕ × List Char)}
    {cs : List Char} {e : Date} (h : runFormat p cs = some e) :
    ∃ dd mm yy, p cs = some (dd, mm, yy, []) ∧ mkDatetime yy mm dd = some e := by
  unfold runFormat at h
  split at h
  · rename_i dd mm yy rest hp
    split at h
    · rename_i hrest
      exact ⟨dd, mm, yy, by rw [hp, List.isEmpty_iff.mp hrest], h⟩
    · exact absurd h (by simp)
  · exact absurd h (by simp)

lemma findSome?_runFormat_valid {fmts : List (List Char → Option (ℕ × ℕ × ℕ × List Char))}
    {cs : List Char} {e : Date}
    (h : fmts.findSome? (fun f => runFormat f cs) = some e) : validDate e := by
  obtain ⟨f, _, hf⟩ := List.exists_of_findSome?_eq_some h
  obtain ⟨dd, mm, yy, _, hmk⟩ := runFormat_eq_some hf
  obtain ⟨rfl, h1, h2, h3, h4, h5, h6⟩ := mkDatetime_eq_some hmk
  exact ⟨h1, h2, h3, h4, h5, h6⟩

lemma VerifyEndDate.verify_parseStartDate_valid {s : String} {e : Date}
    (h : VerifyEndDate.parseStartDate s = some e) : validDate e :=
  findSome?_runFormat_valid h

lemma ProcessContracts.process_parseStartDate_valid {s : String} {e : Date}
    (h : ProcessContracts.parseStartDate s = some e) : validDate e :=
  findSome?_runFormat_valid h

end ParseInversion

section StartDateFormats

/-- Claim C3: the verification-script date parsing first strips commas and
ordinal suffixes, then tries `%d-%m-%Y`, `%d %B %Y`, `%B %Y` (day defaults
to 1) and `%Y-%m-%d` in that order, first success winning; when no format
matches, the function reports "Invalid Start Date Format" instead of
raising. -/
theorem c3_start_date_parsing :
    (∀ (s : String) (d : Date),
      runFormat parseFmt_dmY (cleanDateChars s.toList) = some d →
        VerifyEndDate.parseStartDate s = some d) ∧
    (∀ (s : String) (d : Date),
      runFormat parseFmt_dmY (cleanDateChars s.toList) = none →
      runFormat parseFmt_dBY (cleanDateChars s.toList) = some d →
        VerifyEndDate.parseStartDate s = some d) ∧
    (∀ (s : String) (d : Date),
      runFormat parseFmt_dmY (cleanDateChars s.toList) = none →
      runFormat parseFmt_dBY (cleanDateChars s.toList) = none →
      runFormat parseFmt_BY (cleanDateChars s.toList) = some d →
        VerifyEndDate.parseStartDate s = some d) ∧
    (∀ (s : String) (d : Date),
      runFormat parseFmt_dmY (cleanDateChars s.toList) = none →
      runFormat parseFmt_dBY (cleanDateChars s.toList) = none →
      runFormat parseFmt_BY (cleanDateChars s.toList) = none →
      runFormat parseFmt_Ymd (cleanDateChars s.toList) = some d →
        VerifyEndDate.parseStartDate s = some d) ∧
    (∀ s : String,
      (∀ f ∈ VerifyEndDate.dateFormats, runFormat f (cleanDateChars s.toList) = none) →
        ∀ dur : String,
          VerifyEndDate.calculate_end_date_core s dur = .invalidStartDate) ∧
    (∀ (cs : List Char) (d : Date), runFormat parseFmt_BY cs = some d → d.day = 1) ∧
    VerifyEndDate.parseStartDate "1st March, 2020" = some ⟨2020, 3, 1⟩ := by
  refine ⟨?_, ?_, ?_, ?_, ?_, ?_, by rfl⟩
  · intro s d h
    simp only [VerifyEndDate.parseStartDate, VerifyEndDate.dateFormats,
      List.findSome?_cons, h]
  · intro s d h1 h2
    simp only [VerifyEndDate.parseStartDate, VerifyEndDate.dateFormats,
      List.findSome?_cons, h1, h2]
  · intro s d h1 h2 h3
    simp only [VerifyEndDate.parseStartDate, VerifyEndDate.dateFormats,
      List.findSome?_cons, h1, h2, h3]
  · intro s d h1 h2 h3 h4
    simp only [VerifyEndDate.parseStartDate, VerifyEndDate.dateFormats,
      List.findSome?_cons, h1, h2, h3, h4]
  · intro s h dur
    have hp : VerifyEndDate.parseStartDate s = none :=
      List.findSome?_eq_none_iff.mpr h
    unfold VerifyEndDate.calculate_end_date_core
    rw [hp]
  · intro cs d h
    obtain ⟨dd, mm, yy, hp, hmk⟩ := runFormat_eq_some h
    obtain ⟨mc, _, hmc⟩ := List.exists_of_findSome?_eq_some hp
    obtain ⟨r2, _, hbind⟩ := Option.bind_eq_some.mp hmc
    obtain ⟨yc, _, htup⟩ := Option.map_eq_some'.mp hbind
    obtain ⟨rfl, h2⟩ := mkDatetime_eq_some hmk
    injection htup with htup
    cases htup
    rfl

end StartDateFormats

section MonthArithmetic

lemma monthAdd_arith (Y mu v : ℕ) (h1 : 1 ≤ mu) (h2 : mu ≤ 12) :
    ((if mu + v % 12 > 12 then Y + v / 12 + 1 else Y + v / 12)
        = Y + (mu + v - 1) / 12) ∧
      ((if mu + v % 12 > 12 then mu + v % 12 - 12 else mu + v % 12)
        = (mu + v - 1) % 12 + 1) := by
  constructor <;> split <;> omega

lemma daysInMonth_dec : ∀ y : ℕ, daysInMonth y 12 = 31 := by
  intro y
  simp [daysInMonth]

lemma VerifyEndDate.verify_monthAddResult_date {start : Date} {v : ℕ} {e : Date}
    (hval : validDate start)
    (h : VerifyEndDate.monthAddResult start v = .date e) :
    e = monthTarget start v := by
  have hy1 : 1 ≤ start.year := hval.1
  have hm1 : 1 ≤ start.month := hval.2.2.1
  simp only [VerifyEndDate.monthAddResult] at h
  set Y := start.year + (start.month + v - 1) / 12 with hY
  set M := (start.month + v - 1) % 12 + 1 with hM
  have hMge : 1 ≤ M := by omega
  have hYge : 1 ≤ Y := by omega
  by_cases h12 : M + 1 > 12
  · rw [if_pos h12, if_pos h12] at h
    have hM12 : M = 12 := by omega
    split at h
    · exact absurd h (by simp)
    · rename_i firstOfNext hmk1
      obtain ⟨rfl, _⟩ := mkDatetime_eq_some hmk1
      split at h
      · exact absurd h (by simp)
      · rename_i lastOfTarget hsub
        have hlast : lastOfTarget = ⟨Y, 12, 31⟩ := by
          simp only [subDay] at hsub
          rw [if_neg (by show ¬ (1:ℕ) < 1; omega), if_neg (by show ¬ (1:ℕ) < 1; omega),
            if_pos (by show (1:ℕ) < Y + 1; omega)] at hsub
          have h' := Option.some.inj hsub
          rw [← h']
          have he1 : Y + 1 - 1 = Y := by omega
          rw [he1]
        split at h
        · exact absurd h (by simp)
        · rename_i e2 hmk2
          obtain ⟨rfl, _⟩ := mkDatetime_eq_some hmk2
          injection h with h
          subst h
          simp only [monthTarget, ← hY, ← hM, hlast, hM12, daysInMonth_dec]
  · rw [if_neg h12, if_neg h12] at h
    split at h
    · exact absurd h (by simp)
    · rename_i firstOfNext hmk1
      obtain ⟨rfl, _⟩ := mkDatetime_eq_some hmk1
      split at h
      · exact absurd h (by simp)
      · rename_i lastOfTarget hsub
        have hlast : lastOfTarget = ⟨Y, M, daysInMonth Y M⟩ := by
          simp only [subDay] at hsub
          rw [if_neg (by show ¬ (1:ℕ) < 1; omega),
            if_pos (by show (1:ℕ) < M + 1; omega)] at hsub
          have h' := Option.some.inj hsub
          rw [← h']
          have he1 : M + 1 - 1 = M := by omega
          rw [he1]
        split at h
        · exact absurd h (by simp)
        · rename_i e2 hmk2
          obtain ⟨rfl, _⟩ := mkDatetime_eq_some hmk2
          injection h with h
          subst h
          simp only [monthTarget, ← hY, ← hM, hlast]

lemma ProcessContracts.process_monthAddResult_date {start : Date} {v : ℕ} {e : Date}
    (hval : validDate start)
    (h : ProcessContracts.monthAddResult start v = .date e) :
    e = monthTarget start v := by
  have hm1 : 1 ≤ start.month := hval.2.2.1
  have hm2 : start.month ≤ 12 := hval.2.2.2.1
  have harith := monthAdd_arith start.year start.month v hm1 hm2
  simp only [ProcessContracts.monthAddResult] at h
  set Y0 := start.year + v / 12 with hY0
  set M0 := start.month + v % 12 with hM0
  by_cases h12 : M0 > 12
  · rw [if_pos h12, if_pos h12] at h
    rw [if_pos h12, if_pos h12] at harith
    rw [if_pos (show M0 - 12 < 12 by omega)] at h
    split at h
    · exact absurd h (by simp)
    · rename_i lastDay hld
      split at hld
      · exact absurd hld (by simp)
      · rename_i firstOfNext hmk1
        obtain ⟨rfl, _⟩ := mkDatetime_eq_some hmk1
        have hsub : subDay ⟨Y0 + 1, M0 - 12 + 1, 1⟩
            = some ⟨Y0 + 1, M0 - 12, daysInMonth (Y0 + 1) (M0 - 12)⟩ := by
          simp only [subDay]
          rw [if_neg (by show ¬ (1:ℕ) < 1; omega),
            if_pos (by show (1:ℕ) < M0 - 12 + 1; omega)]
          have he1 : M0 - 12 + 1 - 1 = M0 - 12 := by omega
          rw [he1]
        rw [hsub, Option.map_some'] at hld
        have hld' := Option.some.inj hld
        subst hld'
        split at h
        · exact absurd h (by simp)
        · rename_i e2 hmk2
          obtain ⟨rfl, _⟩ := mkDatetime_eq_some hmk2
          injection h with h
          subst h
          simp only [monthTarget, ← harith.1, ← harith.2]
  · rw [if_neg h12, if_neg h12] at h
    rw [if_neg h12, if_neg h12] at harith
    by_cases hlt : M0 < 12
    · rw [if_pos hlt] at h
      split at h
      · exact absurd h (by simp)
      · rename_i lastDay hld
        split at hld
        · exact absurd hld (by simp)
        · rename_i firstOfNext hmk1
          obtain ⟨rfl, _⟩ := mkDatetime_eq_some hmk1
          have hsub : subDay ⟨Y0, M0 + 1, 1⟩
              = some ⟨Y0, M0, daysInMonth Y0 M0⟩ := by
            simp only [subDay]
            rw [if_neg (by show ¬ (1:ℕ) < 1; omega),
              if_pos (by show (1:ℕ) < M0 + 1; omega)]
            have he1 : M0 + 1 - 1 = M0 := by omega
            rw [he1]
          rw [hsub, Option.map_some'] at hld
          have hld' := Option.some.inj hld
          subst hld'
          split at h
          · exact absurd h (by simp)
          · rename_i e2 hmk2
            obtain ⟨rfl, _⟩ := mkDatetime_eq_some hmk2
            injection h with h
            subst h
            simp only [monthTarget, ← harith.1, ← harith.2]
    · have hM012 : M0 = 12 := by omega
      rw [if_neg hlt] at h
      split at h
      · exact absurd h (by simp)
      · rename_i lastDay hld
        have hld' := Option.some.inj hld
        subst hld'
        split at h
        · exact absurd h (by simp)
        · rename_i e2 hmk2
          obtain ⟨rfl, _⟩ := mkDatetime_eq_some hmk2
          injection h with h
          subst h
          simp only [monthTarget, ← harith.1, ← harith.2, hM012, daysInMonth_dec]

/-- Claim C1: under a `month` duration both implementations derive the end
date by adding the month count with a year carry and clamping the day to
`min(start day, days in target month)` — never rolling into the following
month; in particular the canonical derivation maps "31 January 2020" plus
"1 month" to the leap-aware last day of February, 2020-02-29. -/
theorem c1_month_end_clamp :
    (∀ (s dur : String) (start : Date) (v : ℕ) (u : List Char) (e : Date),
      VerifyEndDate.parseStartDate s = some start →
      searchDuration dur.toList = some (v, u) →
      lowerEq u ("month".toList) = true →
      VerifyEndDate.calculate_end_date_core s dur = .date e →
        e = monthTarget start v) ∧
    (∀ (s dur : String) (start : Date) (v : ℕ) (u : List Char) (e : Date),
      ProcessContracts.parseStartDate s = some start →
      tryDuration dur.toList = some (v, u) →
      lowerEq u ("month".toList) = true →
      ProcessContracts.calculate_end_date_core s dur = .date e →
        e = monthTarget start v) ∧
    VerifyEndDate.calculate_end_date_core "31 January 2020" "1 month"
      = .date ⟨2020, 2, 29⟩ ∧
    VerifyEndDate.calculate_end_date "31 January 2020" "1 month"
      = some "29-02-2020" := by
  refine ⟨?_, ?_, by rfl, by rfl⟩
  · intro s dur start v u e hp hd hu he
    rw [VerifyEndDate.verify_core_unit_cases start v u s dur hp hd] at he
    have hnd := lowerEq_month_not_day hu
    rw [if_neg (by rw [hnd]; exact Bool.false_ne_true), if_pos hu] at he
    exact VerifyEndDate.verify_monthAddResult_date (VerifyEndDate.verify_parseStartDate_valid hp) he
  · intro s dur start v u e hp hd hu he
    rw [ProcessContracts.process_core_unit_cases start v u s dur hp hd] at he
    have hnd := lowerEq_month_not_day hu
    rw [if_neg (by rw [hnd]; exact Bool.false_ne_true), if_pos hu] at he
    exact ProcessContracts.process_monthAddResult_date (ProcessContracts.process_parseStartDate_valid hp) he

/-- Witness for C1 at the concrete spec example and a process-side input. -/
theorem c1_month_end_clamp_witness :
    ((⟨2020, 2, 29⟩ : Date) = monthTarget ⟨2020, 1, 31⟩ 1) ∧
      ((⟨2021, 2, 28⟩ : Date) = monthTarget ⟨2020, 2, 29⟩ 12) :=
  ⟨c1_month_end_clamp.1 "31 January 2020" "1 month" ⟨2020, 1, 31⟩ 1
      ("month".toList) ⟨2020, 2, 29⟩ rfl rfl rfl rfl,
   c1_month_end_clamp.2.1 "2020-02-29" "12 months" ⟨2020, 2, 29⟩ 12
      ("month".toList) ⟨2021, 2, 28⟩ rfl rfl rfl rfl⟩

end MonthArithmetic

section CharClasses

lemma char_toNat_of_eq {c p : Char} (h : (c == p) = true) : c.toNat = p.toNat := by
  rw [beq_iff_eq] at h
  rw [h]

lemma isDigitChar_bounds {c : Char} (h : isDigitChar c = true) :
    48 ≤ c.toNat ∧ c.toNat ≤ 57 := by
  simp only [isDigitChar, Bool.and_eq_true, decide_eq_true_eq] at h
  exact h

lemma isPySpace_le32 {c : Char} (h : isPySpace c = true) : c.toNat ≤ 32 := by
  simp only [isPySpace, Bool.or_eq_true] at h
  rcases h with ((((h | h) | h) | h) | h) | h
  · rw [char_toNat_of_eq h]; decide
  · rw [char_toNat_of_eq h]; decide
  · rw [char_toNat_of_eq h]; decide
  · rw [char_toNat_of_eq h]; decide
  · simp only [beq_iff_eq] at h; omega
  · simp only [beq_iff_eq] at h; omega

lemma ciEq_ge65 {c p : Char} (hp : 97 ≤ p.toNat) (h : ciEq c p = true) :
    65 ≤ c.toNat := by
  simp only [ciEq, Bool.or_eq_true, Bool.and_eq_true] at h
  rcases h with h | ⟨⟨h1, _⟩, _⟩
  · rw [char_toNat_of_eq h]; omega
  · simp only [decide_eq_true_eq] at h1; omega

lemma ciEq_false_of_le64 {c p : Char} (hc : c.toNat ≤ 64) (hp : 97 ≤ p.toNat) :
    ciEq c p = false := by
  cases h : ciEq c p
  · rfl
  · exact absurd (ciEq_ge65 hp h) (by omega)

lemma not_digit_of_ge65 {c : Char} (h : 65 ≤ c.toNat) : isDigitChar c = false := by
  cases hd : isDigitChar c
  · rfl
  · exact absurd (isDigitChar_bounds hd).2 (by omega)

lemma not_space_of_ge65 {c : Char} (h : 65 ≤ c.toNat) : isPySpace c = false := by
  cases hs : isPySpace c
  · rfl
  · exact absurd (isPySpace_le32 hs) (by omega)

lemma not_comma_of_ge65 {c : Char} (h : 65 ≤ c.toNat) : (c == ',') = false := by
  cases hc : c == ','
  · rfl
  · have h2 := char_toNat_of_eq hc
    rw [show (',' : Char).toNat = 44 from rfl] at h2
    omega

lemma not_comma_of_digit {c : Char} (h : isDigitChar c = true) : (c == ',') = false := by
  cases hc : c == ','
  · rfl
  · have h1 := (isDigitChar_bounds h).1
    have h2 := char_toNat_of_eq hc
    rw [show (',' : Char).toNat = 44 from rfl] at h2
    omega

lemma not_comma_of_space {c : Char} (h : isPySpace c = true) : (c == ',') = false := by
  cases hc : c == ','
  · rfl
  · have h1 := isPySpace_le32 h
    have h2 := char_toNat_of_eq hc
    rw [show (',' : Char).toNat = 44 from rfl] at h2
    omega

lemma not_lit45_of_digit {c : Char} (h : isDigitChar c = true) : (c == '-') = false := by
  cases hc : c == '-'
  · rfl
  · have h1 := (isDigitChar_bounds h).1
    have h2 := char_toNat_of_eq hc
    rw [show ('-' : Char).toNat = 45 from rfl] at h2
    omega

lemma not_space_of_digit {c : Char} (h : isDigitChar c = true) : isPySpace c = false := by
  cases hs : isPySpace c
  · rfl
  · have := isPySpace_le32 hs
    have := (isDigitChar_bounds h).1
    omega

lemma suffix2_false_of_le64 {a : Char} (h : a.toNat ≤ 64) :
    ∀ b, suffix2 a b = false := by
  intro b
  unfold suffix2
  rw [ciEq_false_of_le64 h (by decide), ciEq_false_of_le64 h (by decide),
    ciEq_false_of_le64 h (by decide), ciEq_false_of_le64 h (by decide)]
  rfl

end CharClasses

section CandShapes

lemma beq_char_false_of_nondigit {c d : Char} (h : isDigitChar c = false)
    (hd : isDigitChar d = true) : (c == d) = false := by
  by_cases hq : c = d
  · subst hq; rw [h] at hd; exact absurd hd (by simp)
  · exact beq_eq_false_iff_ne.mpr hq

lemma dayCands_empty {c : Char} {t : List Char} (h : isDigitChar c = false) :
    dayCands (c :: t) = [] := by
  have h3 : (c == '3') = false := beq_char_false_of_nondigit h (by decide)
  have h1 : (c == '1') = false := beq_char_false_of_nondigit h (by decide)
  have h2 : (c == '2') = false := beq_char_false_of_nondigit h (by decide)
  have h0 : (c == '0') = false := beq_char_false_of_nondigit h (by decide)
  cases t with
  | nil => simp [dayCands, h]
  | cons b t2 => simp [dayCands, h, h0, h1, h2, h3]

lemma monthCands_empty {c : Char} {t : List Char} (h : isDigitChar c = false) :
    monthCands (c :: t) = [] := by
  have h1 : (c == '1') = false := beq_char_false_of_nondigit h (by decide)
  have h0 : (c == '0') = false := beq_char_false_of_nondigit h (by decide)
  cases t with
  | nil => simp [monthCands, h]
  | cons b t2 => simp [monthCands, h, h0, h1]

lemma dayCands_mem {x : ℕ × List Char} : ∀ {cs : List Char}, x ∈ dayCands cs →
    (∃ c t, cs = c :: t ∧ isDigitChar c = true ∧ x.2 = t) ∨
      (∃ c1 c2 t, cs = c1 :: c2 :: t ∧ isDigitChar c1 = true ∧
        isDigitChar c2 = true ∧ x.2 = t) := by
  intro cs h
  match cs with
  | [] => exact absurd h (by simp [dayCands])
  | [c] =>
    rw [dayCands] at h
    split at h
    · rename_i hcond
      simp only [Bool.and_eq_true] at hcond
      simp only [List.mem_singleton] at h
      exact Or.inl ⟨c, [], rfl, hcond.1, by rw [h]⟩
    · exact absurd h (by simp)
  | c1 :: c2 :: t =>
    have hd1 : isDigitChar c1 = true := by
      by_contra hne
      rw [Bool.not_eq_true] at hne
      rw [dayCands_empty hne] at h
      exact absurd h (by simp)
    rw [dayCands] at h
    rcases List.mem_append.mp h with h | h
    · split at h
      · rename_i hcond
        have hd2 : isDigitChar c2 = true := by
          by_contra hne
          rw [Bool.not_eq_true] at hne
          have e0 : (c2 == '0') = false := beq_char_false_of_nondigit hne (by decide)
          have e1 : (c2 == '1') = false := beq_char_false_of_nondigit hne (by decide)
          rw [e0, e1, hne] at hcond
          simp at hcond
        simp only [List.mem_singleton] at h
        exact Or.inr ⟨c1, c2, t, rfl, hd1, hd2, by rw [h]⟩
      · exact absurd h (by simp)
    · split at h
      · simp only [List.mem_singleton] at h
        exact Or.inl ⟨c1, c2 :: t, rfl, hd1, by rw [h]⟩
      · exact absurd h (by simp)

lemma monthCands_mem {x : ℕ × List Char} : ∀ {cs : List Char}, x ∈ monthCands cs →
    (∃ c t, cs = c :: t ∧ isDigitChar c = true ∧ x.2 = t) ∨
      (∃ c1 c2 t, cs = c1 :: c2 :: t ∧ isDigitChar c1 = true ∧
        isDigitChar c2 = true ∧ x.2 = t) := by
  intro cs h
  match cs with
  | [] => exact absurd h (by simp [monthCands])
  | [c] =>
    rw [monthCands] at h
    split at h
    · rename_i hcond
      simp only [Bool.and_eq_true] at hcond
      simp only [List.mem_singleton] at h
      exact Or.inl ⟨c, [], rfl, hcond.1, by rw [h]⟩
    · exact absurd h (by simp)
  | c1 :: c2 :: t =>
    have hd1 : isDigitChar c1 = true := by
      by_contra hne
      rw [Bool.not_eq_true] at hne
      rw [monthCands_empty hne] at h
      exact absurd h (by simp)
    rw [monthCands] at h
    rcases List.mem_append.mp h with h | h
    · split at h
      · rename_i hcond
        have hd2 : isDigitChar c2 = true := by
          by_contra hne
          rw [Bool.not_eq_true] at hne
          have e0 : (c2 == '0') = false := beq_char_false_of_nondigit hne (by decide)
          have e1 : (c2 == '1') = false := beq_char_false_of_nondigit hne (by decide)
          have e2 : (c2 == '2') = false := beq_char_false_of_nondigit hne (by decide)
          rw [e0, e1, e2, hne] at hcond
          simp at hcond
        simp only [List.mem_singleton] at h
        exact Or.inr ⟨c1, c2, t, rfl, hd1, hd2, by rw [h]⟩
      · exact absurd h (by simp)
    · split at h
      · simp only [List.mem_singleton] at h
        exact Or.inl ⟨c1, c2 :: t, rfl, hd1, by rw [h]⟩
      · exact absurd h (by simp)

lemma yearCand_none_head {c : Char} {t : List Char} (h : isDigitChar c = false) :
    yearCand (c :: t) = none := by
  match t with
  | [] => rfl
  | [b] => rfl
  | [b, b2] => rfl
  | b :: b2 :: b3 :: t2 => simp [yearCand, h]

lemma yearCand_none_2 {a b : Char} {t : List Char} (h : isDigitChar b = false) :
    yearCand (a :: b :: t) = none := by
  match t with
  | [] => rfl
  | [b2] => rfl
  | b2 :: b3 :: t2 => simp [yearCand, h]

lemma yearCand_none_3 {a b c : Char} {t : List Char} (h : isDigitChar c = false) :
    yearCand (a :: b :: c :: t) = none := by
  match t with
  | [] => rfl
  | b2 :: t2 => simp [yearCand, h]

lemma yearCand_inv {cs : List Char} {y : ℕ} {r : List Char}
    (h : yearCand cs = some (y, r)) :
    ∃ a b c d, cs = a :: b :: c :: d :: r ∧ isDigitChar a = true ∧
      isDigitChar b = true ∧ isDigitChar c = true ∧ isDigitChar d = true := by
  match cs with
  | [] => exact absurd h (by simp [yearCand])
  | [a] => exact absurd h (by simp [yearCand])
  | [a, b] => exact absurd h (by simp [yearCand])
  | [a, b, c] => exact absurd h (by simp [yearCand])
  | a :: b :: c :: d :: rest =>
    rw [yearCand] at h
    split at h
    · rename_i hcond
      simp only [Bool.and_eq_true] at hcond
      injection h with h
      injection h with h1 h2
      subst h2
      exact ⟨a, b, c, d, rfl, hcond.1.1.1, hcond.1.1.2, hcond.1.2, hcond.2⟩
    · exact absurd h (by simp)

lemma litCand_inv {ch : Char} {cs r : List Char} (h : litCand ch cs = some r) :
    cs = ch :: r := by
  match cs with
  | [] => exact absurd h (by simp [litCand])
  | c :: rest =>
    rw [litCand] at h
    split at h
    · rename_i hc
      rw [beq_iff_eq] at hc
      injection h with h
      rw [hc, h]
    · exact absurd h (by simp)

lemma litCand_none {ch c : Char} {t : List Char} (h : (c == ch) = false) :
    litCand ch (c :: t) = none := by
  simp [litCand, h]

lemma wsCand_none_head {c : Char} {t : List Char} (h : isPySpace c = false) :
    wsCand (c :: t) = none := by
  simp [wsCand, h]

lemma head?_dropWhile_false {p : Char → Bool} :
    ∀ {l : List Char} {a : Char}, (l.dropWhile p).head? = some a → p a = false := by
  intro l
  induction l with
  | nil => intro a h; simp at h
  | cons b t ih =>
    intro a h
    rw [List.dropWhile_cons] at h
    by_cases hb : p b
    · exact ih (by simpa [hb] using h)
    · simp [hb] at h
      subst h
      simpa using hb

lemma mem_takeWhile_sat {p : Char → Bool} :
    ∀ {l : List Char} {a : Char}, a ∈ l.takeWhile p → p a = true := by
  intro l
  induction l with
  | nil => intro a h; simp at h
  | cons b t ih =>
    intro a h
    rw [List.takeWhile_cons] at h
    by_cases hb : p b
    · simp only [hb, if_true, List.mem_cons] at h
      rcases h with rfl | h
      · exact hb
      · exact ih h
    · simp [hb] at h

lemma wsCand_inv {cs r : List Char} (h : wsCand cs = some r) :
    ∃ w, cs = w ++ r ∧ w ≠ [] ∧ (∀ c ∈ w, isPySpace c = true) ∧
      (∀ c, r.head? = some c → isPySpace c = false) := by
  match cs with
  | [] => exact absurd h (by simp [wsCand])
  | c :: rest =>
    rw [wsCand] at h
    split at h
    · rename_i hc
      injection h with h
      refine ⟨c :: rest.takeWhile isPySpace, ?_, by simp, ?_, ?_⟩
      · rw [List.cons_append]
        rw [← h, List.takeWhile_append_dropWhile]
      · intro x hx
        rcases List.mem_cons.mp hx with rfl | hx
        · exact hc
        · exact mem_takeWhile_sat hx
      · intro x hx
        rw [← h] at hx
        exact head?_dropWhile_false hx
    · exact absurd h (by simp)

end CandShapes

section NameAndClean

lemma ciStrip_inv : ∀ {p cs r : List Char}, ciStrip p cs = some r →
    ∃ pre, cs = pre ++ r ∧ lowerEq pre p = true := by
  intro p
  induction p with
  | nil =>
    intro cs r h
    rw [ciStrip] at h
    injection h with h
    exact ⟨[], by simpa using h, rfl⟩
  | cons q qs ih =>
    intro cs r h
    match cs with
    | [] => exact absurd h (by rw [ciStrip]; simp)
    | c :: rest =>
      rw [ciStrip] at h
      split at h
      · rename_i hc
        obtain ⟨pre, hpre, hlow⟩ := ih h
        refine ⟨c :: pre, by rw [List.cons_append, hpre], ?_⟩
        simp only [lowerEq, Bool.and_eq_true]
        exact ⟨hc, hlow⟩
      · exact absurd h (by simp)

lemma ciStrip_of_lowerEq : ∀ {pre p : List Char}, lowerEq pre p = true →
    ∀ r, ciStrip p (pre ++ r) = some r := by
  intro pre
  induction pre with
  | nil =>
    intro p h r
    match p with
    | [] => rfl
    | q :: qs => exact absurd h (by simp [lowerEq])
  | cons c cs ih =>
    intro p h r
    match p with
    | [] => exact absurd h (by simp [lowerEq])
    | q :: qs =>
      simp only [lowerEq, Bool.and_eq_true] at h
      rw [List.cons_append, ciStrip, if_pos h.1]
      exact ih h.2 r

lemma lowerEq_length_eq : ∀ {a b : List Char}, lowerEq a b = true →
    a.length = b.length := lowerEq_length

lemma monthNames_letters : ∀ nm ∈ monthNames, nm.1 ≠ [] ∧
    ∀ c ∈ nm.1, 97 ≤ c.toNat ∧ c.toNat ≤ 122 := by decide

lemma lowerEq_chars_ge65 : ∀ {pre p : List Char},
    (∀ c ∈ p, 97 ≤ c.toNat) → lowerEq pre p = true →
      ∀ c ∈ pre, 65 ≤ c.toNat := by
  intro pre
  induction pre with
  | nil => intro p _ _ c hc; simp at hc
  | cons a t ih =>
    intro p hp h c hc
    match p with
    | [] => exact absurd h (by simp [lowerEq])
    | q :: qs =>
      simp only [lowerEq, Bool.and_eq_true] at h
      rcases List.mem_cons.mp hc with rfl | hc
      · exact ciEq_ge65 (hp q (by simp)) h.1
      · exact ih (fun x hx => hp x (by simp [hx])) h.2 c hc

lemma monthNameCands_mem {cs : List Char} {mc : ℕ × List Char}
    (h : mc ∈ monthNameCands cs) :
    ∃ nm ∈ monthNames, ciStrip nm.1 cs = some mc.2 ∧ mc.1 = nm.2 := by
  unfold monthNameCands at h
  obtain ⟨nm, hnm, hf⟩ := List.mem_filterMap.mp h
  refine ⟨nm, hnm, ?_, ?_⟩
  · cases hstrip : ciStrip nm.1 cs with
    | none => rw [hstrip] at hf; exact absurd hf (by simp)
    | some r =>
      rw [hstrip] at hf
      simp only [Option.map_some', Option.some.injEq] at hf
      rw [← hf]
  · cases hstrip : ciStrip nm.1 cs with
    | none => rw [hstrip] at hf; exact absurd hf (by simp)
    | some r =>
      rw [hstrip] at hf
      simp only [Option.map_some', Option.some.injEq] at hf
      rw [← hf]

lemma monthNameCands_nil_of_le64 {c : Char} {t : List Char} (h : c.toNat ≤ 64) :
    monthNameCands (c :: t) = [] := by
  unfold monthNameCands
  rw [List.filterMap_eq_nil_iff]
  intro nm hnm
  obtain ⟨hne, hch⟩ := monthNames_letters nm hnm
  match hq : nm.1 with
  | [] => exact absurd hq hne
  | q :: qs =>
    have hq97 : 97 ≤ q.toNat := (hch q (by rw [hq]; simp)).1
    rw [ciStrip, if_neg (by rw [ciEq_false_of_le64 h hq97]; simp)]
    rfl

end NameAndClean

section OrdinalClean

lemma ordAux_cons_digit {a : Char} (ha : isDigitChar a = true)
    (flag : Bool) (rest : List Char) :
    ordinalSubAux flag (a :: rest) = a :: ordinalSubAux true rest := by
  cases rest with
  | nil => simp [ordinalSubAux, ha]
  | cons b r2 => simp [ordinalSubAux, ha]

lemma ordAux_head_safe {a : Char} (h1 : isDigitChar a = false)
    (h2 : ∀ b, suffix2 a b = false) (flag : Bool) (rest : List Char) :
    ordinalSubAux flag (a :: rest) = a :: ordinalSubAux false rest := by
  cases rest with
  | nil => simp [ordinalSubAux, h1]
  | cons b rest2 => simp [ordinalSubAux, h1, h2 b]

lemma ordAux_cons_nondigit_false {a : Char} (ha : isDigitChar a = false)
    (rest : List Char) :
    ordinalSubAux false (a :: rest) = a :: ordinalSubAux false rest := by
  cases rest with
  | nil => simp [ordinalSubAux, ha]
  | cons b r2 => simp [ordinalSubAux, ha]

lemma ordAux_digits : ∀ {l : List Char}, (∀ c ∈ l, isDigitChar c = true) →
    l ≠ [] → ∀ (flag : Bool) (rest : List Char),
      ordinalSubAux flag (l ++ rest) = l ++ ordinalSubAux true rest := by
  intro l
  induction l with
  | nil => intro _ hne; exact absurd rfl hne
  | cons a t ih =>
    intro h _ flag rest
    have ha : isDigitChar a = true := h a (by simp)
    rw [List.cons_append, ordAux_cons_digit ha]
    match t with
    | [] => rfl
    | b :: t2 =>
      rw [ih (fun c hc => h c (by simp [hc])) (by simp) true rest]
      rfl

lemma ordAux_safe_run : ∀ {l : List Char},
    (∀ c ∈ l, isDigitChar c = false ∧ ∀ b, suffix2 c b = false) →
    l ≠ [] → ∀ (flag : Bool) (rest : List Char),
      ordinalSubAux flag (l ++ rest) = l ++ ordinalSubAux false rest := by
  intro l
  induction l with
  | nil => intro _ hne; exact absurd rfl hne
  | cons a t ih =>
    intro h _ flag rest
    have ha := h a (by simp)
    rw [List.cons_append, ordAux_head_safe ha.1 ha.2]
    match t with
    | [] => rfl
    | b :: t2 =>
      rw [ih (fun c hc => h c (by simp [hc])) (by simp) false rest]
      rfl

lemma ordAux_letters : ∀ {l : List Char}, (∀ c ∈ l, isDigitChar c = false) →
    ∀ rest : List Char,
      ordinalSubAux false (l ++ rest) = l ++ ordinalSubAux false rest := by
  intro l
  induction l with
  | nil => intro _ rest; rfl
  | cons a t ih =>
    intro h rest
    have ha : isDigitChar a = false := h a (by simp)
    rw [List.cons_append, ordAux_cons_nondigit_false ha,
      ih (fun c hc => h c (by simp [hc])) rest]
    rfl

lemma dropWhile_eq_self_of_head {p : Char → Bool} {cs : List Char}
    (h : ∀ c, cs.head? = some c → p c = false) : cs.dropWhile p = cs := by
  match cs with
  | [] => rfl
  | c :: t => rw [List.dropWhile_cons, h c rfl]; simp

lemma pyStripList_eq_self {cs : List Char}
    (h1 : ∀ c, cs.head? = some c → isPySpace c = false)
    (h2 : ∀ c, cs.getLast? = some c → isPySpace c = false) :
    pyStripList cs = cs := by
  unfold pyStripList
  rw [dropWhile_eq_self_of_head h1]
  rw [dropWhile_eq_self_of_head (fun c hc => h2 c (by rwa [← List.head?_reverse]))]
  exact List.reverse_reverse cs

lemma filter_comma_eq_self {cs : List Char} (h : ∀ c ∈ cs, (c == ',') = false) :
    cs.filter (fun c => !(c == ',')) = cs := by
  rw [List.filter_eq_self]
  intro a ha
  rw [h a ha]
  rfl

lemma dropWhile_append_all {p : Char → Bool} :
    ∀ {l1 : List Char} (l2 : List Char), (∀ c ∈ l1, p c = true) →
      (∀ c, l2.head? = some c → p c = false) →
      List.dropWhile p (l1 ++ l2) = l2 := by
  intro l1
  induction l1 with
  | nil => intro l2 _ h2; exact dropWhile_eq_self_of_head h2
  | cons a t ih =>
    intro l2 h1 h2
    rw [List.cons_append, List.dropWhile_cons, h1 a (by simp)]
    simp only [if_true]
    exact ih l2 (fun c hc => h1 c (by simp [hc])) h2

end OrdinalClean

section AgreeHelpers

lemma head?_mem {l : List Char} {c : Char} (h : l.head? = some c) : c ∈ l := by
  cases l with
  | nil => simp at h
  | cons a t => simp at h; simp [h]

lemma not_digit_of_space {c : Char} (h : isPySpace c = true) :
    isDigitChar c = false := by
  cases hd : isDigitChar c
  · rfl
  · have := isPySpace_le32 h
    have := (isDigitChar_bounds hd).1
    omega

lemma runFormat_none {p : List Char → Option (ℕ × ℕ × ℕ × List Char)}
    {cs : List Char} (h : p cs = none) : runFormat p cs = none := by
  unfold runFormat
  rw [h]

lemma pyStripList_eq_of_all {cs : List Char}
    (h : ∀ c ∈ cs, isPySpace c = false) : pyStripList cs = cs :=
  pyStripList_eq_self (fun c hc => h c (head?_mem hc))
    (fun c hc => h c (by
      have : c ∈ cs.reverse := head?_mem (by rwa [List.head?_reverse])
      simpa using this))

lemma parseFmt_dmY_none_3digits {a b c : Char} {t : List Char}
    (_ha : isDigitChar a = true) (hb : isDigitChar b = true)
    (hc : isDigitChar c = true) : parseFmt_dmY (a :: b :: c :: t) = none := by
  unfold parseFmt_dmY
  rw [List.findSome?_eq_none_iff]
  intro dc hdc
  rcases dayCands_mem hdc with ⟨c0, t0, heq, _, hrest⟩ |
    ⟨c0, c1, t0, heq, _, _, hrest⟩
  · injection heq with h1 h2
    rw [hrest, ← h2, litCand_none (not_lit45_of_digit hb)]
    rfl
  · injection heq with h1 h2
    injection h2 with h2 h3
    rw [hrest, ← h3, litCand_none (not_lit45_of_digit hc)]
    rfl

lemma parseFmt_dBY_none_3digits {a b c : Char} {t : List Char}
    (_ha : isDigitChar a = true) (hb : isDigitChar b = true)
    (hc : isDigitChar c = true) : parseFmt_dBY (a :: b :: c :: t) = none := by
  unfold parseFmt_dBY
  rw [List.findSome?_eq_none_iff]
  intro dc hdc
  rcases dayCands_mem hdc with ⟨c0, t0, heq, _, hrest⟩ |
    ⟨c0, c1, t0, heq, _, _, hrest⟩
  · injection heq with h1 h2
    rw [hrest, ← h2, wsCand_none_head (not_space_of_digit hb)]
    rfl
  · injection heq with h1 h2
    injection h2 with h2 h3
    rw [hrest, ← h3, wsCand_none_head (not_space_of_digit hc)]
    rfl

lemma parseFmt_BY_none_of_le64 {c : Char} {t : List Char} (h : c.toNat ≤ 64) :
    parseFmt_BY (c :: t) = none := by
  unfold parseFmt_BY
  rw [monthNameCands_nil_of_le64 h]
  rfl

lemma caseB_shape {cs : List Char} {dd mm yy : ℕ} {rest : List Char}
    (h : parseFmt_Ymd cs = some (dd, mm, yy, rest)) :
    ∃ (a b c d : Char) (Mc Dc : List Char),
      cs = a :: b :: c :: d :: '-' :: (Mc ++ '-' :: (Dc ++ rest)) ∧
      isDigitChar a = true ∧ isDigitChar b = true ∧ isDigitChar c = true ∧
      isDigitChar d = true ∧
      Mc ≠ [] ∧ (∀ x ∈ Mc, isDigitChar x = true) ∧
      Dc ≠ [] ∧ (∀ x ∈ Dc, isDigitChar x = true) := by
  unfold parseFmt_Ymd at h
  obtain ⟨⟨y, r1⟩, hy, h⟩ := Option.bind_eq_some.mp h
  obtain ⟨a, b, c, d, hcs, ha, hb, hc, hd⟩ := yearCand_inv hy
  obtain ⟨r2, hlit, h⟩ := Option.bind_eq_some.mp h
  have hr1 : r1 = '-' :: r2 := litCand_inv hlit
  obtain ⟨mc, hmcmem, h⟩ := List.exists_of_findSome?_eq_some h
  obtain ⟨r4, hlit2, h⟩ := Option.bind_eq_some.mp h
  have hmc2 : mc.2 = '-' :: r4 := litCand_inv hlit2
  obtain ⟨dc, hdcmem, h⟩ := List.exists_of_findSome?_eq_some h
  injection h with h
  have hdc2 : dc.2 = rest := congrArg (fun q => q.2.2.2) h
  rcases monthCands_mem hmcmem with ⟨c0, t0, heq, hdig, hrest⟩ |
    ⟨c0, c1, t0, heq, hdig0, hdig1, hrest⟩
  · rcases dayCands_mem hdcmem with ⟨e0, s0, heqd, hdigd, hrestd⟩ |
      ⟨e0, e1, s0, heqd, hdigd0, hdigd1, hrestd⟩
    · refine ⟨a, b, c, d, [c0], [e0], ?_, ha, hb, hc, hd, by simp, ?_, by simp, ?_⟩
      · rw [hcs, hr1, heq]
        have : t0 = '-' :: r4 := by rw [← hrest, hmc2]
        rw [this]
        have : r4 = e0 :: s0 := heqd
        rw [this]
        have : s0 = rest := by rw [← hrestd, hdc2]
        rw [this]
        rfl
      · intro x hx; simp at hx; rw [hx]; exact hdig
      · intro x hx; simp at hx; rw [hx]; exact hdigd
    · refine ⟨a, b, c, d, [c0], [e0, e1], ?_, ha, hb, hc, hd, by simp, ?_, by simp, ?_⟩
      · rw [hcs, hr1, heq]
        have : t0 = '-' :: r4 := by rw [← hrest, hmc2]
        rw [this]
        have : r4 = e0 :: e1 :: s0 := heqd
        rw [this]
        have : s0 = rest := by rw [← hrestd, hdc2]
        rw [this]
        rfl
      · intro x hx; simp at hx; rw [hx]; exact hdig
      · intro x hx; simp at hx
        rcases hx with rfl | rfl
        · exact hdigd0
        · exact hdigd1
  · rcases dayCands_mem hdcmem with ⟨e0, s0, heqd, hdigd, hrestd⟩ |
      ⟨e0, e1, s0, heqd, hdigd0, hdigd1, hrestd⟩
    · refine ⟨a, b, c, d, [c0, c1], [e0], ?_, ha, hb, hc, hd, by simp, ?_, by simp, ?_⟩
      · rw [hcs, hr1, heq]
        have : t0 = '-' :: r4 := by rw [← hrest, hmc2]
        rw [this]
        have : r4 = e0 :: s0 := heqd
        rw [this]
        have : s0 = rest := by rw [← hrestd, hdc2]
        rw [this]
        rfl
      · intro x hx; simp at hx
        rcases hx with rfl | rfl
        · exact hdig0
        · exact hdig1
      · intro x hx; simp at hx; rw [hx]; exact hdigd
    · refine ⟨a, b, c, d, [c0, c1], [e0, e1], ?_, ha, hb, hc, hd, by simp, ?_, by simp, ?_⟩
      · rw [hcs, hr1, heq]
        have : t0 = '-' :: r4 := by rw [← hrest, hmc2]
        rw [this]
        have : r4 = e0 :: e1 :: s0 := heqd
        rw [this]
        have : s0 = rest := by rw [← hrestd, hdc2]
        rw [this]
        rfl
      · intro x hx; simp at hx
        rcases hx with rfl | rfl
        · exact hdig0
        · exact hdig1
      · intro x hx; simp at hx
        rcases hx with rfl | rfl
        · exact hdigd0
        · exact hdigd1

lemma hyphen_not_digit : isDigitChar '-' = false := by decide

lemma hyphen_suffix_false : ∀ b, suffix2 '-' b = false :=
  suffix2_false_of_le64 (by decide)

lemma clean_digits_shape (a b c d : Char) (Mc Dc : List Char)
    (ha : isDigitChar a = true) (hb : isDigitChar b = true)
    (hc : isDigitChar c = true) (hd : isDigitChar d = true)
    (hMne : Mc ≠ []) (hMdig : ∀ x ∈ Mc, isDigitChar x = true)
    (hDne : Dc ≠ []) (hDdig : ∀ x ∈ Dc, isDigitChar x = true) :
    cleanDateChars (a :: b :: c :: d :: '-' :: (Mc ++ '-' :: Dc))
      = a :: b :: c :: d :: '-' :: (Mc ++ '-' :: Dc) := by
  have hall : ∀ x ∈ a :: b :: c :: d :: '-' :: (Mc ++ '-' :: Dc),
      isDigitChar x = true ∨ x = '-' := by
    intro x hx
    simp only [List.mem_cons, List.mem_append] at hx
    rcases hx with rfl | rfl | rfl | rfl | rfl | hx | rfl | hx
    · exact Or.inl ha
    · exact Or.inl hb
    · exact Or.inl hc
    · exact Or.inl hd
    · exact Or.inr rfl
    · exact Or.inl (hMdig x hx)
    · exact Or.inr rfl
    · exact Or.inl (hDdig x hx)
  unfold cleanDateChars
  rw [filter_comma_eq_self (by
    intro x hx
    rcases hall x hx with hdig | rfl
    · exact not_comma_of_digit hdig
    · decide)]
  have hord : ordinalSub (a :: b :: c :: d :: '-' :: (Mc ++ '-' :: Dc))
      = a :: b :: c :: d :: '-' :: (Mc ++ '-' :: Dc) := by
    unfold ordinalSub
    have hshow : a :: b :: c :: d :: '-' :: (Mc ++ '-' :: Dc)
        = [a, b, c, d] ++ ('-' :: (Mc ++ '-' :: Dc)) := rfl
    rw [hshow, ordAux_digits (by
        intro x hx
        simp at hx
        rcases hx with rfl | rfl | rfl | rfl
        · exact ha
        · exact hb
        · exact hc
        · exact hd) (by simp) false,
      ordAux_head_safe hyphen_not_digit hyphen_suffix_false true,
      ordAux_digits hMdig hMne false,
      ordAux_head_safe hyphen_not_digit hyphen_suffix_false true]
    have hDc : ordinalSubAux false Dc = Dc := by
      conv_lhs => rw [← List.append_nil Dc]
      rw [ordAux_digits hDdig hDne false []]
      show Dc ++ [] = Dc
      exact List.append_nil Dc
    rw [hDc]
  rw [hord]
  exact pyStripList_eq_of_all (by
    intro x hx
    rcases hall x hx with hdig | rfl
    · exact not_space_of_digit hdig
    · decide)

lemma caseB_verify_eq {s : String} {d1 : Date}
    (h : runFormat parseFmt_Ymd s.toList = some d1) :
    VerifyEndDate.parseStartDate s = some d1 := by
  obtain ⟨dd, mm, yy, hp, hmk⟩ := runFormat_eq_some h
  obtain ⟨a, b, c, d, Mc, Dc, hcs, ha, hb, hc, hd, hMne, hMdig, hDne, hDdig⟩ :=
    caseB_shape hp
  rw [List.append_nil] at hcs
  have hclean : cleanDateChars s.toList = s.toList := by
    rw [hcs]
    exact clean_digits_shape a b c d Mc Dc ha hb hc hd hMne hMdig hDne hDdig
  have h1 : runFormat parseFmt_dmY s.toList = none := by
    rw [hcs]; exact runFormat_none (parseFmt_dmY_none_3digits ha hb hc)
  have h2 : runFormat parseFmt_dBY s.toList = none := by
    rw [hcs]; exact runFormat_none (parseFmt_dBY_none_3digits ha hb hc)
  have h3 : runFormat parseFmt_BY s.toList = none := by
    rw [hcs]
    exact runFormat_none (parseFmt_BY_none_of_le64 (by
      have := (isDigitChar_bounds ha).2
      omega))
  unfold VerifyEndDate.parseStartDate VerifyEndDate.dateFormats
  rw [hclean]
  simp only [List.findSome?_cons, h1, h2, h3, h]

lemma caseA_shape {cs : List Char} {dd mm yy : ℕ} {rest : List Char}
    (h : parseFmt_BdY cs = some (dd, mm, yy, rest)) :
    ∃ (pre w1 Dc w2 : List Char) (e1 e2 e3 e4 : Char),
      cs = pre ++ (w1 ++ (Dc ++ (',' :: (w2 ++ (e1 :: e2 :: e3 :: e4 :: rest))))) ∧
      pre ≠ [] ∧ (∀ x ∈ pre, 65 ≤ x.toNat) ∧
      w1 ≠ [] ∧ (∀ x ∈ w1, isPySpace x = true) ∧
      ((∃ c0, Dc = [c0] ∧ isDigitChar c0 = true) ∨
        (∃ c0 c1, Dc = [c0, c1] ∧ isDigitChar c0 = true ∧ isDigitChar c1 = true)) ∧
      w2 ≠ [] ∧ (∀ x ∈ w2, isPySpace x = true) ∧
      isDigitChar e1 = true ∧ isDigitChar e2 = true ∧
      isDigitChar e3 = true ∧ isDigitChar e4 = true := by
  unfold parseFmt_BdY at h
  obtain ⟨mc, hmcmem, h⟩ := List.exists_of_findSome?_eq_some h
  obtain ⟨nm, hnm, hstrip, _⟩ := monthNameCands_mem hmcmem
  obtain ⟨pre, hcs, hlow⟩ := ciStrip_inv hstrip
  have hprene : pre ≠ [] := by
    intro hnil
    have hl := lowerEq_length hlow
    rw [hnil] at hl
    have := (monthNames_letters nm hnm).1
    cases hq : nm.1
    · exact this hq
    · rw [hq] at hl; simp at hl
  have hpre65 : ∀ x ∈ pre, 65 ≤ x.toNat :=
    lowerEq_chars_ge65 (fun c hc => ((monthNames_letters nm hnm).2 c hc).1) hlow
  obtain ⟨r2, hws, h⟩ := Option.bind_eq_some.mp h
  obtain ⟨w1, hmc2, hw1ne, hw1sp, _⟩ := wsCand_inv hws
  obtain ⟨dc, hdcmem, h⟩ := List.exists_of_findSome?_eq_some h
  obtain ⟨r4, hlit, h⟩ := Option.bind_eq_some.mp h
  have hdc2 : dc.2 = ',' :: r4 := litCand_inv hlit
  obtain ⟨r5, hws2, h⟩ := Option.bind_eq_some.mp h
  obtain ⟨w2, hr4, hw2ne, hw2sp, _⟩ := wsCand_inv hws2
  obtain ⟨⟨yv, yr⟩, hyear, hout⟩ := Option.map_eq_some'.mp h
  obtain ⟨e1, e2, e3, e4, hr5, he1, he2, he3, he4⟩ := yearCand_inv hyear
  have hyr : yr = rest := by
    have := congrArg (fun q : ℕ × ℕ × ℕ × List Char => q.2.2.2) hout
    simpa using this
  subst hyr
  rcases dayCands_mem hdcmem with ⟨c0, t0, heq, hdig, hrest⟩ |
    ⟨c0, c1, t0, heq, hdig0, hdig1, hrest⟩
  · refine ⟨pre, w1, [c0], w2, e1, e2, e3, e4, ?_, hprene, hpre65, hw1ne, hw1sp,
      Or.inl ⟨c0, rfl, hdig⟩, hw2ne, hw2sp, he1, he2, he3, he4⟩
    rw [hcs, hmc2, heq]
    have ht0 : t0 = ',' :: r4 := by rw [← hrest, hdc2]
    rw [ht0, hr4, hr5]
    rfl
  · refine ⟨pre, w1, [c0, c1], w2, e1, e2, e3, e4, ?_, hprene, hpre65, hw1ne, hw1sp,
      Or.inr ⟨c0, c1, rfl, hdig0, hdig1⟩, hw2ne, hw2sp, he1, he2, he3, he4⟩
    rw [hcs, hmc2, heq]
    have ht0 : t0 = ',' :: r4 := by rw [← hrest, hdc2]
    rw [ht0, hr4, hr5]
    rfl

lemma caseA_clean (pre w1 Dc w2 : List Char) (e1 e2 e3 e4 : Char)
    (hpre65 : ∀ x ∈ pre, 65 ≤ x.toNat) (hprene : pre ≠ [])
    (hw1sp : ∀ x ∈ w1, isPySpace x = true) (hw1ne : w1 ≠ [])
    (hDdig : ∀ x ∈ Dc, isDigitChar x = true) (hDne : Dc ≠ [])
    (hw2sp : ∀ x ∈ w2, isPySpace x = true) (hw2ne : w2 ≠ [])
    (he1 : isDigitChar e1 = true) (he2 : isDigitChar e2 = true)
    (he3 : isDigitChar e3 = true) (he4 : isDigitChar e4 = true) :
    cleanDateChars (pre ++ (w1 ++ (Dc ++ (',' :: (w2 ++ [e1, e2, e3, e4])))))
      = pre ++ (w1 ++ (Dc ++ (w2 ++ [e1, e2, e3, e4]))) := by
  have hE : ∀ x ∈ [e1, e2, e3, e4], isDigitChar x = true := by
    intro x hx
    simp at hx
    rcases hx with rfl | rfl | rfl | rfl
    · exact he1
    · exact he2
    · exact he3
    · exact he4
  unfold cleanDateChars
  have hfil : List.filter (fun c => !(c == ','))
      (pre ++ (w1 ++ (Dc ++ (',' :: (w2 ++ [e1, e2, e3, e4])))))
        = pre ++ (w1 ++ (Dc ++ (w2 ++ [e1, e2, e3, e4]))) := by
    simp only [List.filter_append]
    rw [filter_comma_eq_self (fun x hx => not_comma_of_ge65 (hpre65 x hx)),
      filter_comma_eq_self (fun x hx => not_comma_of_space (hw1sp x hx)),
      filter_comma_eq_self (fun x hx => not_comma_of_digit (hDdig x hx)),
      List.filter_cons_of_neg (by decide), List.filter_append,
      filter_comma_eq_self (fun x hx => not_comma_of_space (hw2sp x hx)),
      filter_comma_eq_self (fun x hx => not_comma_of_digit (hE x hx))]
  rw [hfil]
  have hord : ordinalSub (pre ++ (w1 ++ (Dc ++ (w2 ++ [e1, e2, e3, e4]))))
      = pre ++ (w1 ++ (Dc ++ (w2 ++ [e1, e2, e3, e4]))) := by
    unfold ordinalSub
    rw [ordAux_letters (fun x hx => not_digit_of_ge65 (hpre65 x hx)),
      ordAux_safe_run (fun x hx => ⟨not_digit_of_space (hw1sp x hx),
        suffix2_false_of_le64 (by have := isPySpace_le32 (hw1sp x hx); omega)⟩) hw1ne false,
      ordAux_digits hDdig hDne false,
      ordAux_safe_run (fun x hx => ⟨not_digit_of_space (hw2sp x hx),
        suffix2_false_of_le64 (by have := isPySpace_le32 (hw2sp x hx); omega)⟩) hw2ne true]
    have hEord : ordinalSubAux false [e1, e2, e3, e4] = [e1, e2, e3, e4] := by
      conv_lhs => rw [show [e1, e2, e3, e4] = [e1, e2, e3, e4] ++ []
        from (List.append_nil _).symm]
      rw [ordAux_digits hE (by simp) false []]
      show [e1, e2, e3, e4] ++ [] = [e1, e2, e3, e4]
      exact List.append_nil _
    rw [hEord]
  rw [hord]
  apply pyStripList_eq_self
  · obtain ⟨p, pre2, rfl⟩ : ∃ p pre2, pre = p :: pre2 := by
      cases pre with
      | nil => exact absurd rfl hprene
      | cons p pre2 => exact ⟨p, pre2, rfl⟩
    intro c hc
    rw [List.cons_append] at hc
    simp only [List.head?_cons, Option.some.injEq] at hc
    rw [← hc]
    exact not_space_of_ge65 (hpre65 p (by simp))
  · intro c hc
    have hlast : (pre ++ (w1 ++ (Dc ++ (w2 ++ [e1, e2, e3, e4])))).getLast?
        = some e4 := by
      rw [List.getLast?_append_of_ne_nil _ (by simp),
        List.getLast?_append_of_ne_nil _ (by simp),
        List.getLast?_append_of_ne_nil _ (by simp),
        List.getLast?_append_of_ne_nil _ (by simp)]
      simp [List.getLast?]
    rw [hlast] at hc
    injection hc with hc
    subst hc
    exact not_space_of_digit he4

lemma parseFmt_BY_none_caseA (pre w1 Dc w2 : List Char) (e1 e2 e3 e4 : Char)
    (hpre65 : ∀ x ∈ pre, 65 ≤ x.toNat)
    (hw1sp : ∀ x ∈ w1, isPySpace x = true) (hw1ne : w1 ≠ [])
    (hDshape : (∃ c0, Dc = [c0] ∧ isDigitChar c0 = true) ∨
      (∃ c0 c1, Dc = [c0, c1] ∧ isDigitChar c0 = true ∧ isDigitChar c1 = true))
    (hw2sp : ∀ x ∈ w2, isPySpace x = true) (hw2ne : w2 ≠ []) :
    parseFmt_BY (pre ++ (w1 ++ (Dc ++ (w2 ++ [e1, e2, e3, e4])))) = none := by
  obtain ⟨w, w1x, rfl⟩ : ∃ w w1x, w1 = w :: w1x := by
    cases w1 with
    | nil => exact absurd rfl hw1ne
    | cons w w1x => exact ⟨w, w1x, rfl⟩
  unfold parseFmt_BY
  rw [List.findSome?_eq_none_iff]
  intro mc hmem
  obtain ⟨nm, hnm, hstrip, _⟩ := monthNameCands_mem hmem
  obtain ⟨pre2, hCLeq, hlow2⟩ := ciStrip_inv hstrip
  have hpre2_65 : ∀ x ∈ pre2, 65 ≤ x.toNat :=
    lowerEq_chars_ge65 (fun c hc => ((monthNames_letters nm hnm).2 c hc).1) hlow2
  have htake : pre2 = (pre ++ ((w :: w1x) ++ (Dc ++ (w2 ++ [e1, e2, e3, e4])))).take
      pre2.length := by
    rw [hCLeq]
    exact (List.take_left pre2 mc.2).symm
  have hlen : pre2.length ≤ pre.length := by
    by_contra hgt
    push_neg at hgt
    have hwmem : w ∈ pre2 := by
      rw [htake, List.take_append_eq_append_take]
      apply List.mem_append_right
      obtain ⟨k, hk2⟩ : ∃ k, pre2.length - pre.length = k + 1 :=
        ⟨pre2.length - pre.length - 1, by omega⟩
      rw [hk2, List.cons_append, List.take_succ_cons]
      simp
    have h65 := hpre2_65 w hwmem
    have h32 := isPySpace_le32 (hw1sp w (by simp))
    omega
  have hmc2 : mc.2 = pre.drop pre2.length ++
      ((w :: w1x) ++ (Dc ++ (w2 ++ [e1, e2, e3, e4]))) := by
    have hdrop : mc.2 = (pre ++ ((w :: w1x) ++ (Dc ++ (w2 ++ [e1, e2, e3, e4])))).drop
        pre2.length := by
      rw [hCLeq]
      exact (List.drop_left pre2 mc.2).symm
    rw [hdrop, List.drop_append_eq_append_drop,
      show pre2.length - pre.length = 0 by omega, List.drop_zero]
  by_cases heq : pre2.length = pre.length
  · have hdrop0 : pre.drop pre2.length = [] := by
      rw [heq]
      exact List.drop_length pre
    rw [hdrop0, List.nil_append] at hmc2
    have hDhead : ∀ c, (Dc ++ (w2 ++ [e1, e2, e3, e4])).head? = some c →
        isPySpace c = false := by
      intro c hc
      rcases hDshape with ⟨c0, rfl, hd0⟩ | ⟨c0, c1, rfl, hd0, _⟩
      · simp at hc
        rw [← hc]
        exact not_space_of_digit hd0
      · simp at hc
        rw [← hc]
        exact not_space_of_digit hd0
    have hws : wsCand ((w :: w1x) ++ (Dc ++ (w2 ++ [e1, e2, e3, e4])))
        = some (Dc ++ (w2 ++ [e1, e2, e3, e4])) := by
      rw [List.cons_append, wsCand, if_pos (hw1sp w (by simp))]
      rw [dropWhile_append_all _ (fun c hc => hw1sp c (by simp [hc])) hDhead]
    rw [hmc2, hws]
    obtain ⟨v, w2x, rfl⟩ : ∃ v w2x, w2 = v :: w2x := by
      cases w2 with
      | nil => exact absurd rfl hw2ne
      | cons v w2x => exact ⟨v, w2x, rfl⟩
    rcases hDshape with ⟨c0, rfl, _⟩ | ⟨c0, c1, rfl, _, _⟩
    · rw [Option.some_bind,
        show ([c0] ++ ((v :: w2x) ++ [e1, e2, e3, e4]))
          = c0 :: v :: (w2x ++ [e1, e2, e3, e4]) from rfl,
        yearCand_none_2 (not_digit_of_space (hw2sp v (by simp)))]
      rfl
    · rw [Option.some_bind,
        show ([c0, c1] ++ ((v :: w2x) ++ [e1, e2, e3, e4]))
          = c0 :: c1 :: v :: (w2x ++ [e1, e2, e3, e4]) from rfl,
        yearCand_none_3 (not_digit_of_space (hw2sp v (by simp)))]
      rfl
  · have hlt : pre2.length < pre.length := lt_of_le_of_ne hlen heq
    have hne2 : pre.drop pre2.length ≠ [] := by
      intro hnil
      have hl := congrArg List.length hnil
      rw [List.length_drop] at hl
      simp at hl
      omega
    obtain ⟨q, Q, hq⟩ : ∃ q Q, pre.drop pre2.length = q :: Q := by
      cases hd : pre.drop pre2.length with
      | nil => exact absurd hd hne2
      | cons q Q => exact ⟨q, Q, rfl⟩
    have hq65 : 65 ≤ q.toNat := hpre65 q (List.mem_of_mem_drop (by rw [hq]; simp))
    rw [hmc2, hq, List.cons_append, wsCand_none_head (not_space_of_ge65 hq65)]
    rfl

lemma parseFmt_dmY_none_nondigit {c : Char} {t : List Char}
    (h : isDigitChar c = false) : parseFmt_dmY (c :: t) = none := by
  unfold parseFmt_dmY
  rw [dayCands_empty h]
  rfl

lemma parseFmt_dBY_none_nondigit {c : Char} {t : List Char}
    (h : isDigitChar c = false) : parseFmt_dBY (c :: t) = none := by
  unfold parseFmt_dBY
  rw [dayCands_empty h]
  rfl

lemma parseFmt_Ymd_none_nondigit {c : Char} {t : List Char}
    (h : isDigitChar c = false) : parseFmt_Ymd (c :: t) = none := by
  unfold parseFmt_Ymd
  rw [yearCand_none_head h]
  rfl

lemma caseA_verify_none {s : String} {dd mm yy : ℕ}
    (h : parseFmt_BdY s.toList = some (dd, mm, yy, [])) :
    VerifyEndDate.parseStartDate s = none := by
  obtain ⟨pre, w1, Dc, w2, e1, e2, e3, e4, hcs, hprene, hpre65, hw1ne, hw1sp,
    hDshape, hw2ne, hw2sp, he1, he2, he3, he4⟩ := caseA_shape h
  have hDdig : ∀ x ∈ Dc, isDigitChar x = true := by
    rcases hDshape with ⟨c0, rfl, h0⟩ | ⟨c0, c1, rfl, h0, h1⟩
    · intro x hx
      simp at hx
      rw [hx]
      exact h0
    · intro x hx
      simp at hx
      rcases hx with rfl | rfl
      · exact h0
      · exact h1
  have hDne : Dc ≠ [] := by
    rcases hDshape with ⟨c0, rfl, _⟩ | ⟨c0, c1, rfl, _, _⟩ <;> simp
  have hclean : cleanDateChars s.toList
      = pre ++ (w1 ++ (Dc ++ (w2 ++ [e1, e2, e3, e4]))) := by
    rw [hcs]
    exact caseA_clean pre w1 Dc w2 e1 e2 e3 e4 hpre65 hprene hw1sp hw1ne
      hDdig hDne hw2sp hw2ne he1 he2 he3 he4
  obtain ⟨p, preX, rfl⟩ : ∃ p preX, pre = p :: preX := by
    cases pre with
    | nil => exact absurd rfl hprene
    | cons p preX => exact ⟨p, preX, rfl⟩
  have hp65 : 65 ≤ p.toNat := hpre65 p (by simp)
  have hnd : isDigitChar p = false := not_digit_of_ge65 hp65
  have hconsform : (p :: preX) ++ (w1 ++ (Dc ++ (w2 ++ [e1, e2, e3, e4])))
      = p :: (preX ++ (w1 ++ (Dc ++ (w2 ++ [e1, e2, e3, e4])))) := rfl
  have h1 : runFormat parseFmt_dmY
      ((p :: preX) ++ (w1 ++ (Dc ++ (w2 ++ [e1, e2, e3, e4])))) = none := by
    rw [hconsform]
    exact runFormat_none (parseFmt_dmY_none_nondigit hnd)
  have h2 : runFormat parseFmt_dBY
      ((p :: preX) ++ (w1 ++ (Dc ++ (w2 ++ [e1, e2, e3, e4])))) = none := by
    rw [hconsform]
    exact runFormat_none (parseFmt_dBY_none_nondigit hnd)
  have h3 : runFormat parseFmt_BY
      ((p :: preX) ++ (w1 ++ (Dc ++ (w2 ++ [e1, e2, e3, e4])))) = none :=
    runFormat_none (parseFmt_BY_none_caseA (p :: preX) w1 Dc w2 e1 e2 e3 e4
      hpre65 hw1sp hw1ne hDshape hw2sp hw2ne)
  have h4 : runFormat parseFmt_Ymd
      ((p :: preX) ++ (w1 ++ (Dc ++ (w2 ++ [e1, e2, e3, e4])))) = none := by
    rw [hconsform]
    exact runFormat_none (parseFmt_Ymd_none_nondigit hnd)
  unfold VerifyEndDate.parseStartDate VerifyEndDate.dateFormats
  rw [hclean]
  simp only [List.findSome?_cons, h1, h2, h3, h4]
  rfl

lemma parseStart_agree {s : String} {d1 d2 : Date}
    (hP : ProcessContracts.parseStartDate s = some d1)
    (hV : VerifyEndDate.parseStartDate s = some d2) : d1 = d2 := by
  unfold ProcessContracts.parseStartDate at hP
  rw [List.findSome?_cons] at hP
  cases hBdY : runFormat parseFmt_BdY s.toList with
  | some d =>
    obtain ⟨dd, mm, yy, hfmt, hmk⟩ := runFormat_eq_some hBdY
    have := caseA_verify_none hfmt
    rw [this] at hV
    exact absurd hV (by simp)
  | none =>
    rw [hBdY] at hP
    simp only [List.findSome?_cons, List.findSome?_nil] at hP
    cases hYmd : runFormat parseFmt_Ymd s.toList with
    | none => rw [hYmd] at hP; exact absurd hP (by simp)
    | some d =>
      rw [hYmd] at hP
      simp only [Option.some.injEq] at hP
      subst hP
      have hveq := caseB_verify_eq hYmd
      rw [hveq] at hV
      injection hV with hV

end AgreeHelpers

section Refinement

lemma VerifyEndDate.verify_core_date_inv {s dur : String} {e : Date}
    (h : VerifyEndDate.calculate_end_date_core s dur = .date e) :
    ∃ start v u, VerifyEndDate.parseStartDate s = some start ∧
      searchDuration dur.toList = some (v, u) ∧
      ((lowerEq u ("day".toList) = true ∧ dayAddResult start v = .date e) ∨
        (lowerEq u ("month".toList) = true ∧
          VerifyEndDate.monthAddResult start v = .date e)) := by
  cases hp : VerifyEndDate.parseStartDate s with
  | none =>
    unfold VerifyEndDate.calculate_end_date_core at h
    rw [hp] at h
    exact absurd h (by simp)
  | some start =>
    cases hd : searchDuration dur.toList with
    | none =>
      unfold VerifyEndDate.calculate_end_date_core at h
      rw [hp, hd] at h
      exact absurd h (by simp)
    | some r =>
      obtain ⟨v, u⟩ := r
      rw [VerifyEndDate.verify_core_unit_cases start v u s dur hp hd] at h
      refine ⟨start, v, u, rfl, rfl, ?_⟩
      rcases searchDuration_unit hd with hu | hu
      · rw [if_pos hu] at h
        exact Or.inl ⟨hu, h⟩
      · have hnd := lowerEq_month_not_day hu
        rw [if_neg (by rw [hnd]; exact Bool.false_ne_true), if_pos hu] at h
        exact Or.inr ⟨hu, h⟩

lemma ProcessContracts.process_core_date_inv {s dur : String} {e : Date}
    (h : ProcessContracts.calculate_end_date_core s dur = .date e) :
    ∃ start v u, ProcessContracts.parseStartDate s = some start ∧
      tryDuration dur.toList = some (v, u) ∧
      ((lowerEq u ("day".toList) = true ∧ dayAddResult start v = .date e) ∨
        (lowerEq u ("month".toList) = true ∧
          ProcessContracts.monthAddResult start v = .date e)) := by
  cases hp : ProcessContracts.parseStartDate s with
  | none =>
    unfold ProcessContracts.calculate_end_date_core at h
    rw [hp] at h
    exact absurd h (by simp)
  | some start =>
    cases hd : tryDuration dur.toList with
    | none =>
      unfold ProcessContracts.calculate_end_date_core at h
      rw [hp, hd] at h
      exact absurd h (by simp)
    | some r =>
      obtain ⟨v, u⟩ := r
      rw [ProcessContracts.process_core_unit_cases start v u s dur hp hd] at h
      refine ⟨start, v, u, rfl, rfl, ?_⟩
      rcases tryDuration_unit hd with hu | hu
      · rw [if_pos hu] at h
        exact Or.inl ⟨hu, h⟩
      · have hnd := lowerEq_month_not_day hu
        rw [if_neg (by rw [hnd]; exact Bool.false_ne_true), if_pos hu] at h
        exact Or.inr ⟨hu, h⟩

/-- Claim C10: whenever both embedded implementations of
`calculate_end_date` produce an end date for the same pair of input
strings, the dates agree in year, month and day; the rendered outputs
differ only in their fixed formats (`%Y-%m-%d` versus `%d-%m-%Y`). -/
theorem c10_implementations_agree :
    (∀ (s dur : String) (e1 e2 : Date),
      ProcessContracts.calculate_end_date_core s dur = .date e1 →
      VerifyEndDate.calculate_end_date_core s dur = .date e2 →
        e1 = e2) ∧
    (∀ (s dur : String) (e : Date),
      ProcessContracts.calculate_end_date_core s dur = .date e →
        ProcessContracts.calculate_end_date s dur = some (strftime_Ymd e)) ∧
    (∀ (s dur : String) (e : Date),
      VerifyEndDate.calculate_end_date_core s dur = .date e →
        VerifyEndDate.calculate_end_date s dur = some (strftime_dmY e)) := by
  refine ⟨?_, ?_, ?_⟩
  · intro s dur e1 e2 h1 h2
    obtain ⟨st1, v1, u1, hp1, hd1, hcase1⟩ := ProcessContracts.process_core_date_inv h1
    obtain ⟨st2, v2, u2, hp2, hd2, hcase2⟩ := VerifyEndDate.verify_core_date_inv h2
    have hsame : st1 = st2 := parseStart_agree hp1 hp2
    subst hsame
    have hdsame : searchDuration dur.toList = some (v1, u1) := matchDuration_search hd1
    rw [hdsame] at hd2
    injection hd2 with hd2
    injection hd2 with hv hu
    subst hv
    subst hu
    rcases hcase1 with ⟨hu1, hr1⟩ | ⟨hu1, hr1⟩
    · rcases hcase2 with ⟨_, hr2⟩ | ⟨hu2, hr2⟩
      · rw [hr1] at hr2
        injection hr2 with hr2
      · rw [lowerEq_month_not_day hu2] at hu1
        exact absurd hu1 (by simp)
    · rcases hcase2 with ⟨hu2, hr2⟩ | ⟨hu2, hr2⟩
      · rw [lowerEq_month_not_day hu1] at hu2
        exact absurd hu2 (by simp)
      · have hval := ProcessContracts.process_parseStartDate_valid hp1
        rw [ProcessContracts.process_monthAddResult_date hval hr1,
          VerifyEndDate.verify_monthAddResult_date (VerifyEndDate.verify_parseStartDate_valid hp2) hr2]
  · intro s dur e h
    unfold ProcessContracts.calculate_end_date
    rw [h]
  · intro s dur e h
    unfold VerifyEndDate.calculate_end_date
    rw [h]

/-- Witness for C10 at a concrete input both implementations accept. -/
theorem c10_implementations_agree_witness :
    ((⟨2020, 2, 29⟩ : Date) = ⟨2020, 2, 29⟩) ∧
      ProcessContracts.calculate_end_date "2020-01-31" "1 month"
        = some (strftime_Ymd ⟨2020, 2, 29⟩) ∧
      VerifyEndDate.calculate_end_date "2020-01-31" "1 month"
        = some (strftime_dmY ⟨2020, 2, 29⟩) :=
  ⟨c10_implementations_agree.1 "2020-01-31" "1 month" ⟨2020, 2, 29⟩ ⟨2020, 2, 29⟩
      rfl rfl,
   c10_implementations_agree.2.1 "2020-01-31" "1 month" ⟨2020, 2, 29⟩ rfl,
   c10_implementations_agree.2.2 "2020-01-31" "1 month" ⟨2020, 2, 29⟩ rfl⟩

end Refinement

end Contracts
